import Mathlib

/-!
Verification development for the MyPIVXWallet core: the ledger
reconciliation engine (`src/scripts/mempool.js`, plus the bitmask variant
of the tracker) and the correlated request/response network client
(`src/scripts/network.js`).

The JavaScript classes are shallowly embedded as Lean structures and pure
functions.  JS `Map` objects become association lists with insertion-order
semantics, the `Multimap` of spent outpoints becomes a flat list of
key/value pairs, and the two external capabilities of the ledger — the
network fetch `getNetwork().getTxFullInfo` composed with
`parseTransaction`, and the ownership oracle `wallet.isMyVout` — become
explicit function parameters `fetch : String → Transaction` and
`oracle : String → Nat` (the `.state` bitmask of `isMyVout`).
-/

set_option autoImplicit false

namespace MPW

/-- `COutpoint` from `src/scripts/mempool.js`: a (transaction id, output
index) pair. -/
structure COutpoint where
  txid : String
  n : Nat
deriving DecidableEq

/-- `CTxOut` from `src/scripts/mempool.js`: an output, carrying its own
outpoint, a redeem script (hex string) and a value in satoshi. -/
structure CTxOut where
  outpoint : COutpoint
  script : String
  value : Nat
deriving DecidableEq

/-- `CTxIn` from `src/scripts/mempool.js`: an input, referencing the
outpoint it spends. -/
structure CTxIn where
  outpoint : COutpoint
  scriptSig : String
deriving DecidableEq

/-- `Transaction` from `src/scripts/mempool.js`. `blockHeight` is `-1`
when the transaction is pending. -/
structure Transaction where
  txid : String
  blockHeight : Int
  vin : List CTxIn
  vout : List CTxOut
deriving DecidableEq

/-- `Transaction.isConfirmed`: `this.blockHeight != -1`. -/
def Transaction.isConfirmed (tx : Transaction) : Bool :=
  tx.blockHeight != -1

/-- `UTXO_WALLET_STATE.SPENDABLE` (wallet code, `src/unnamed/part_004`). -/
def UTXO_WALLET_STATE.SPENDABLE : Nat := 1

/-- `UTXO_WALLET_STATE.SPENDABLE_COLD` (wallet code, `src/unnamed/part_004`). -/
def UTXO_WALLET_STATE.SPENDABLE_COLD : Nat := 2

/-- One element of the snapshot list delivered by the `'utxo'` event
(a Blockbook UTXO: `txid`, output index `vout`, block `height`). -/
structure SnapshotUTXO where
  txid : String
  vout : Nat
  height : Int
deriving DecidableEq

/-- One element of the batch delivered by the `'recent_txs'` event:
the fields of the notification that the handler reads. -/
structure RecentTx where
  txid : String
  blockHeight : Int
deriving DecidableEq

/-! ### JS `Map<String, Transaction>`, as an association list -/

/-- JS `Map.prototype.has`. -/
def mapHas (mp : List (String × Transaction)) (k : String) : Bool :=
  mp.any (fun p => p.1 == k)

/-- JS `Map.prototype.get`. -/
def mapGet (mp : List (String × Transaction)) (k : String) : Option Transaction :=
  (mp.find? (fun p => p.1 == k)).map (fun p => p.2)

/-- JS `Map.prototype.set`: replaces the value in place when the key is
present, appends a fresh entry otherwise (preserving iteration order). -/
def mapSet (mp : List (String × Transaction)) (k : String) (v : Transaction) :
    List (String × Transaction) :=
  if mapHas mp k then mp.map (fun p => if p.1 == k then (k, v) else p)
  else mp ++ [(k, v)]

/-! ### The `Multimap` of spent outpoints (`src/unnamed/part_000`)

`Multimap<String, COutpoint>` maps a txid to the set of spent outpoints
recorded under it.  We represent it as the flat list of key/value pairs in
insertion order; `get` returns `none` exactly when the key was never set,
mirroring the `undefined` of the original. -/

/-- `Multimap.prototype.get`: all values recorded under `k`, or `none`
(`undefined`) when the key is absent. -/
def Multimap.getList (mm : List (String × COutpoint)) (k : String) :
    Option (List COutpoint) :=
  if mm.any (fun p => p.1 == k) then
    some ((mm.filter (fun p => p.1 == k)).map (fun p => p.2))
  else none

/-! ### The `Mempool` ledger state (`src/scripts/mempool.js`) -/

/-- The `Mempool` instance state: the private fields `#isLoaded`,
`#balance`, `#coldBalance`, `#syncHeight` and the two containers
`spent` and `txmap`. -/
structure Mempool where
  isLoaded : Bool
  balance : Nat
  coldBalance : Nat
  syncHeight : Int
  spent : List (String × COutpoint)
  txmap : List (String × Transaction)
deriving DecidableEq

/-- The state of `new Mempool()`: not loaded, zero cached balances,
`#syncHeight = -1`, empty containers. -/
def mempoolNew : Mempool :=
  { isLoaded := false, balance := 0, coldBalance := 0, syncHeight := -1
    spent := [], txmap := [] }

/-- `Mempool.reset`: clears `#isLoaded`, `txmap` and `spent`; the other
private fields (in particular `#syncHeight`) keep their values. -/
def Mempool.reset (m : Mempool) : Mempool :=
  { m with isLoaded := false, txmap := [], spent := [] }

/-- `Mempool.isSpent`, value of the raw JS expression
`this.spent.get(op.txid)?.some((x) => x.n == op.n)`: `none` models the
`undefined` produced by the optional chaining when the txid key is
absent. -/
def Mempool.isSpentRaw (m : Mempool) (op : COutpoint) : Option Bool :=
  (Multimap.getList m.spent op.txid).map (fun l => l.any (fun x => x.n == op.n))

/-- `Mempool.isSpent` as consumed by every call site (`if (this.isSpent(op))`
etc.): the boolean coercion of the raw result, `undefined` counting as
false. -/
def Mempool.isSpent (m : Mempool) (op : COutpoint) : Bool :=
  (m.isSpentRaw op).getD false

/-- `Mempool.getBalanceNew(filter)`: scans every output of every stored
transaction, skips spent outputs and outputs whose ownership state does
not intersect `filter`, and sums the remaining values.  `oracle` is
`(await wallet.isMyVout(script)).state`. -/
def Mempool.getBalanceNew (m : Mempool) (oracle : String → Nat) (filter : Nat) : Nat :=
  m.txmap.foldl
    (fun tot p =>
      p.2.vout.foldl
        (fun tot vout =>
          if m.isSpent vout.outpoint then tot
          else if (oracle vout.script &&& filter) == 0 then tot
          else tot + vout.value)
        tot)
    0

/-- The early-return test of `Mempool.getUTXOs`:
`totFound > (11 / 10) * target`.  With no target supplied the JS
comparison against `NaN` is false; with a target it is the exact
rational comparison `totFound > 1.1 · target`, written over integers. -/
def earlyEnough (target : Option Nat) (totFound : Nat) : Bool :=
  match target with
  | none => false
  | some t => 11 * t < 10 * totFound

/-- Inner loop of `Mempool.getUTXOs` over the outputs of one transaction.
`Sum.inr` is the early `return utxos` taken once enough value is
accumulated; `Sum.inl` continues the outer scan with the updated
accumulator and running total. -/
def getUTXOsVoutLoop (m : Mempool) (oracle : String → Nat) (filter : Nat)
    (target : Option Nat) :
    List CTxOut → List CTxOut → Nat → (List CTxOut × Nat) ⊕ (List CTxOut)
  | [], utxos, totFound => Sum.inl (utxos, totFound)
  | vout :: rest, utxos, totFound =>
    if m.isSpent vout.outpoint then
      getUTXOsVoutLoop m oracle filter target rest utxos totFound
    else if (oracle vout.script &&& filter) == 0 then
      getUTXOsVoutLoop m oracle filter target rest utxos totFound
    else
      let utxos' := utxos ++ [vout]
      let totFound' := totFound + vout.value
      if earlyEnough target totFound' then Sum.inr utxos'
      else getUTXOsVoutLoop m oracle filter target rest utxos' totFound'

/-- Outer loop of `Mempool.getUTXOs` over the stored transactions. -/
def getUTXOsTxLoop (m : Mempool) (oracle : String → Nat) (filter : Nat)
    (target : Option Nat) (onlyConfirmed : Bool) :
    List (String × Transaction) → List CTxOut → Nat → List CTxOut
  | [], utxos, _ => utxos
  | p :: rest, utxos, totFound =>
    if onlyConfirmed && !p.2.isConfirmed then
      getUTXOsTxLoop m oracle filter target onlyConfirmed rest utxos totFound
    else
      match getUTXOsVoutLoop m oracle filter target p.2.vout utxos totFound with
      | Sum.inr utxos' => utxos'
      | Sum.inl (utxos', totFound') =>
        getUTXOsTxLoop m oracle filter target onlyConfirmed rest utxos' totFound'

/-- `Mempool.getUTXOs(filter, target, onlyConfirmed)`. -/
def Mempool.getUTXOs (m : Mempool) (oracle : String → Nat) (filter : Nat)
    (target : Option Nat) (onlyConfirmed : Bool := false) : List CTxOut :=
  getUTXOsTxLoop m oracle filter target onlyConfirmed m.txmap [] 0

/-- One conditional insertion of `Mempool.updateMempool`'s input loop:
`if (!this.isSpent(op)) { this.spent.set(op.txid, op); }`. -/
def Mempool.setSpentIfNew (m : Mempool) (op : COutpoint) : Mempool :=
  if m.isSpent op then m else { m with spent := m.spent ++ [(op.txid, op)] }

/-- The pair of assignments performed at the end of both ingestion paths:
`this.#balance = await this.getBalanceNew(UTXO_WALLET_STATE.SPENDABLE);`
`this.#coldBalance = await this.getBalanceNew(UTXO_WALLET_STATE.SPENDABLE_COLD);` -/
def Mempool.refreshBalances (m : Mempool) (oracle : String → Nat) : Mempool :=
  let m1 := { m with balance := m.getBalanceNew oracle UTXO_WALLET_STATE.SPENDABLE }
  { m1 with coldBalance := m1.getBalanceNew oracle UTXO_WALLET_STATE.SPENDABLE_COLD }

/-- `Mempool.updateMempool(tx)`: stores the transaction, marks every
input outpoint spent (first-write-wins), then refreshes the two cached
balances by full recomputation. -/
def Mempool.updateMempool (m : Mempool) (oracle : String → Nat) (tx : Transaction) :
    Mempool :=
  let m1 := { m with txmap := mapSet m.txmap tx.txid tx }
  let m2 := tx.vin.foldl (fun acc vin => acc.setSpentIfNew vin.outpoint) m1
  m2.refreshBalances oracle

/-- `this.txmap.has(t) && this.txmap.get(t).isConfirmed()`: the negation
of the processing condition of the `'recent_txs'` handler (which is
`!has || !isConfirmed`, the `get` being reached only when `has` holds). -/
def hasConfirmedTx (mp : List (String × Transaction)) (t : String) : Bool :=
  match mapGet mp t with
  | none => false
  | some tx => tx.isConfirmed

/-- The loop body of the `'recent_txs'` handler in
`Mempool.subscribeToNetwork`: drops entries below `#syncHeight`, skips
transactions already known and confirmed, and otherwise fetches the full
body and applies `updateMempool`.  The second component records the txids
fetched from the network, in order. -/
def recentTxsLoop (oracle : String → Nat) (fetch : String → Transaction) :
    Mempool → List RecentTx → Mempool × List String
  | m, [] => (m, [])
  | m, tx :: rest =>
    if m.syncHeight > tx.blockHeight then
      recentTxsLoop oracle fetch m rest
    else if hasConfirmedTx m.txmap tx.txid then
      recentTxsLoop oracle fetch m rest
    else
      let fullTx := fetch tx.txid
      let r := recentTxsLoop oracle fetch (m.updateMempool oracle fullTx) rest
      (r.1, tx.txid :: r.2)

/-- The `'recent_txs'` event handler: a no-op before the initial load. -/
def recentTxsHandler (oracle : String → Nat) (fetch : String → Transaction)
    (m : Mempool) (txs : List RecentTx) : Mempool × List String :=
  if !m.isLoaded then (m, [])
  else recentTxsLoop oracle fetch m txs

/-- The `isMyUTXO` test of the `'utxo'` handler:
`utxos.some((x) => x.txid == op.txid && x.vout == op.n)` — is the pair
`(t, i)` listed in the snapshot? -/
def tinB (utxos : List SnapshotUTXO) (t : String) (i : Nat) : Bool :=
  utxos.any (fun x => x.txid == t && x.vout == i)

/-- The inner loop of the `'utxo'` handler over the outputs of one fetched
transaction: every output `op = (txid, vout.n)` that is not in the
snapshot list (`isMyUTXO`, i.e. `tinB`) and not already spent is recorded
as spent under the fetched txid. -/
def snapshotMarkSpent (utxos : List SnapshotUTXO) (txid : String) :
    Mempool → List CTxOut → Mempool
  | m, [] => m
  | m, vout :: rest =>
    snapshotMarkSpent utxos txid
      (if !(tinB utxos txid vout.outpoint.n)
          && !(m.isSpent { txid := txid, n := vout.outpoint.n }) then
        { m with spent := m.spent ++ [(txid, { txid := txid, n := vout.outpoint.n })] }
      else m) rest

/-- One iteration of the `'utxo'` handler loop: raise `#syncHeight`
(always, before the known-txid check), and for a txid not yet known fetch
the full transaction `tx = fetch u.txid`, store it under `tx.txid`, and
mark its non-snapshot outputs spent.  The known-txid check and the store
read `txmap`, which the `#syncHeight` assignment does not touch. -/
def utxoStep (fetch : String → Transaction) (utxos : List SnapshotUTXO)
    (m : Mempool) (u : SnapshotUTXO) : Mempool :=
  if mapHas m.txmap u.txid then { m with syncHeight := max m.syncHeight u.height }
  else
    snapshotMarkSpent utxos (fetch u.txid).txid
      { m with
        syncHeight := max m.syncHeight u.height,
        txmap := mapSet m.txmap (fetch u.txid).txid (fetch u.txid) }
      (fetch u.txid).vout

/-- The loop of the `'utxo'` handler over the snapshot list. -/
def utxoLoop (fetch : String → Transaction) (utxos : List SnapshotUTXO)
    (m : Mempool) (rest : List SnapshotUTXO) : Mempool :=
  rest.foldl (utxoStep fetch utxos) m

/-- The `'utxo'` event handler (initial snapshot ingestion) of
`Mempool.subscribeToNetwork`.  The boolean result records whether the
`console.error('ERROR! Event UTXO called on already loaded mempool')`
report was emitted; in that case (and for an empty snapshot) the state is
returned untouched.  Otherwise the snapshot is ingested, `#isLoaded` is
set, and both cached balances are recomputed. -/
def utxoHandler (oracle : String → Nat) (fetch : String → Transaction)
    (m : Mempool) (utxos : List SnapshotUTXO) : Mempool × Bool :=
  if utxos.length == 0 then (m, false)
  else if m.isLoaded then (m, true)
  else
    let m1 := utxoLoop fetch utxos m utxos
    (Mempool.refreshBalances { m1 with isLoaded := true } oracle, false)

/-! ### The bitmask-status tracker variant (`src/unnamed/part_003`)

This evolution of the tracker keys a `Map<string, number>` of status bits
by the canonical encoding `outpoint.toUnique()`.  The encoding is
injective, so the map is represented here as an association list keyed by
the outpoint value itself. -/

/-- `OutpointState.OURS`. -/
def OutpointState.OURS : Nat := 1
/-- `OutpointState.P2PKH`. -/
def OutpointState.P2PKH : Nat := 2
/-- `OutpointState.P2CS`. -/
def OutpointState.P2CS : Nat := 4
/-- `OutpointState.SPENT`. -/
def OutpointState.SPENT : Nat := 8
/-- `OutpointState.LOCKED`. -/
def OutpointState.LOCKED : Nat := 32

/-- The `#outpointStatus` map of the bitmask tracker variant. -/
structure MempoolB where
  outpointStatus : List (COutpoint × Nat)
deriving DecidableEq

/-- `getOutpointStatus`: `this.#outpointStatus.get(outpoint.toUnique()) ?? 0`. -/
def MempoolB.getOutpointStatus (m : MempoolB) (op : COutpoint) : Nat :=
  match m.outpointStatus.find? (fun p => p.1 == op) with
  | some p => p.2
  | none => 0

/-- The bitmask variant's `isSpent`:
`!!(this.getOutpointStatus(outpoint) & OutpointState.SPENT)`. -/
def MempoolB.isSpent (m : MempoolB) (op : COutpoint) : Bool :=
  (m.getOutpointStatus op &&& OutpointState.SPENT) != 0

/-! ### The transport client (`src/scripts/network.js`) -/

/-- `WebSocket.CONNECTING`. -/
def WebSocketCONNECTING : Nat := 0
/-- `WebSocket.OPEN`. -/
def WebSocketOPEN : Nat := 1
/-- `WebSocket.CLOSING`. -/
def WebSocketCLOSING : Nat := 2
/-- `WebSocket.CLOSED`. -/
def WebSocketCLOSED : Nat := 3

/-- JS keyed assignment `arr[id] = v` on the response cache: overwrite in
place when the key exists, append otherwise. -/
def assocSet {α : Type} (l : List (String × α)) (k : String) (v : α) :
    List (String × α) :=
  if l.any (fun p => p.1 == k) then
    l.map (fun p => if p.1 == k then (k, v) else p)
  else l ++ [(k, v)]

/-- JS keyed read `arr[id]`: `none` models `undefined`. -/
def assocGet {α : Type} (l : List (String × α)) (k : String) : Option α :=
  (l.find? (fun p => p.1 == k)).map (fun p => p.2)

/-- The connection-local state read by the `onmessage` handler of
`ExplorerNetwork.openWebSocketConnection`: the socket's `readyState`, the
subscription table (correlation id ↦ an opaque handle for the registered
callback) and the response cache.  The payload type is abstract. -/
structure WSClient (α : Type) where
  readyState : Nat
  subscriptions : List (String × Nat)
  cachedResults : List (String × α)
deriving DecidableEq

/-- An incoming message, after `JSON.parse`: correlation `id` and payload
`data`. -/
structure WSMessage (α : Type) where
  id : String
  data : α
deriving DecidableEq

/-- The `onmessage` handler: returns the updated client state together
with the delivery that happened (`some (f, payload)` when the payload was
passed to the subscription callback `f`).  A message arriving while the
socket is not `OPEN` is dropped entirely; otherwise the payload is always
cached under its id, and additionally delivered when a subscription
matches. -/
def onMessage {α : Type} (net : WSClient α) (msg : WSMessage α) :
    WSClient α × Option (Nat × α) :=
  if net.readyState != WebSocketOPEN then (net, none)
  else
    let sub := assocGet net.subscriptions msg.id
    ({ net with cachedResults := assocSet net.cachedResults msg.id msg.data },
      sub.map (fun f => (f, msg.data)))

/-! #### `ExplorerNetwork.sendAndWaitForAnswer`

The retry loop is deterministic once we fix, for every attempt, what the
polling observes: `avail i` is the cached response visible at poll
iteration `i` of that attempt, and `swapAfter i` tells whether the check
`ws_that_sent !== this.ws` fires after the sleep of iteration `i`.
Sleeping is recorded as accumulated milliseconds. -/

/-- `maxAttempts = 10`. -/
def maxAttempts : Nat := 10
/-- `maxAwaitTime = 600 * 1000` milliseconds. -/
def maxAwaitTime : Nat := 600 * 1000
/-- `frequency = 100` milliseconds. -/
def frequency : Nat := 100
/-- The number of poll iterations of one attempt:
`Math.floor(maxAwaitTime / frequency)`. -/
def pollLimit : Nat := maxAwaitTime / frequency

/-- A cached reply as inspected by the loop: `error` is the truthiness of
`res.error`. -/
structure WSResp (α : Type) where
  error : Bool
  data : α
deriving DecidableEq

/-- The observable environment of one send attempt. -/
structure AttemptEnv (α : Type) where
  avail : Nat → Option (WSResp α)
  swapAfter : Nat → Bool

/-- Result of one attempt: either a returned payload or a failed attempt
(`receivedInvalidAnswer` true when a cached application-level error was
consumed).  `sleptMs` is the total time slept during the attempt. -/
inductive AttemptOutcome (α : Type) where
  | success (data : α) (sleptMs : Nat)
  | failure (receivedInvalidAnswer : Bool) (sleptMs : Nat)
deriving DecidableEq

/-- Add sleep time to an attempt outcome. -/
def addSleep {α : Type} (ms : Nat) : AttemptOutcome α → AttemptOutcome α
  | .success d s => .success d (s + ms)
  | .failure b s => .failure b (s + ms)

/-- The inner `for (let i = 0; i < maxAwaitTime / frequency; i++)` loop of
one attempt, with `fuel` iterations remaining at iteration index `i`:
a cached response returns immediately (an error response sleeps 1000 ms
and fails the attempt), otherwise the loop sleeps 100 ms and breaks early
when the connection was swapped. -/
def pollAux {α : Type} (env : AttemptEnv α) : Nat → Nat → AttemptOutcome α
  | _, 0 => .failure false 0
  | i, fuel + 1 =>
    match env.avail i with
    | some res =>
      if res.error then .failure true 1000 else .success res.data 0
    | none =>
      if env.swapAfter i then .failure false 100
      else addSleep 100 (pollAux env (i + 1) fuel)

/-- One complete send attempt. -/
def runAttempt {α : Type} (env : AttemptEnv α) : AttemptOutcome α :=
  pollAux env 0 pollLimit

/-- The `while (attempt <= maxAttempts)` loop, with `fuel` the number of
attempts still allowed (`maxAttempts - attempt + 1`); falling out of the
loop throws `'Failed to communicate with the explorer'`.  The second
component counts the send attempts actually performed. -/
def sendLoopAux {α : Type} (envs : Nat → AttemptEnv α) :
    Nat → Nat → Except String α × Nat
  | _, 0 => (.error "Failed to communicate with the explorer", 0)
  | attempt, fuel + 1 =>
    match runAttempt (envs attempt) with
    | .success d _ => (.ok d, 1)
    | .failure _ _ =>
      let r := sendLoopAux envs (attempt + 1) fuel
      (r.1, r.2 + 1)

/-- `ExplorerNetwork.sendAndWaitForAnswer`, starting at `attempt = 1`. -/
def sendAndWaitForAnswer {α : Type} (envs : Nat → AttemptEnv α) :
    Except String α × Nat :=
  sendLoopAux envs 1 maxAttempts

/-! ### Basic lemmas about the spent multimap -/

lemma any_map_filter {α β : Type} (l : List α) (p : α → Bool) (f : α → β)
    (q : β → Bool) :
    ((l.filter p).map f).any q = l.any (fun a => p a && q (f a)) := by
  induction l with
  | nil => rfl
  | cons a l ih =>
    cases h : p a <;> simp [List.filter_cons, h, ih]

/-- `isSpent` in terms of the flat entry list: some recorded pair has the
outpoint's txid as key and a value with the outpoint's index. -/
lemma isSpent_eq_any (m : Mempool) (op : COutpoint) :
    m.isSpent op = m.spent.any (fun p => p.1 == op.txid && p.2.n == op.n) := by
  unfold Mempool.isSpent Mempool.isSpentRaw Multimap.getList
  split
  · simp only [Option.map_some', Option.getD_some]
    exact any_map_filter m.spent _ _ _
  · next h =>
    simp only [Option.map_none', Option.getD_none]
    symm
    rw [List.any_eq_false]
    intro x hx hc
    have hx1 : (x.1 == op.txid) = true := by
      revert hc; cases (x.1 == op.txid) <;> simp
    exact h (by rw [List.any_eq_true]; exact ⟨x, hx, hx1⟩)

lemma isSpent_append (m : Mempool) (k : String) (q op : COutpoint) :
    Mempool.isSpent { m with spent := m.spent ++ [(k, q)] } op
      = (m.isSpent op || (k == op.txid && q.n == op.n)) := by
  rw [isSpent_eq_any, isSpent_eq_any]
  simp [List.any_append]

/-! ### Frame lemmas: which fields each operation touches -/

lemma isSpent_congr (m m' : Mempool) (h : m'.spent = m.spent) (op : COutpoint) :
    m'.isSpent op = m.isSpent op := by
  unfold Mempool.isSpent Mempool.isSpentRaw Multimap.getList
  rw [h]

lemma getBalanceNew_congr (m m' : Mempool) (h1 : m'.txmap = m.txmap)
    (h2 : m'.spent = m.spent) (oracle : String → Nat) (filter : Nat) :
    m'.getBalanceNew oracle filter = m.getBalanceNew oracle filter := by
  unfold Mempool.getBalanceNew
  rw [h1]
  congr 1
  funext tot p
  congr 1
  funext tot vout
  rw [isSpent_congr m m' h2]

lemma setSpentIfNew_frame (m : Mempool) (op : COutpoint) :
    (m.setSpentIfNew op).isLoaded = m.isLoaded
    ∧ (m.setSpentIfNew op).balance = m.balance
    ∧ (m.setSpentIfNew op).coldBalance = m.coldBalance
    ∧ (m.setSpentIfNew op).syncHeight = m.syncHeight
    ∧ (m.setSpentIfNew op).txmap = m.txmap := by
  unfold Mempool.setSpentIfNew
  split <;> simp

lemma foldl_setSpent_frame (l : List CTxIn) :
    ∀ m : Mempool,
      (l.foldl (fun acc vin => acc.setSpentIfNew vin.outpoint) m).isLoaded = m.isLoaded
      ∧ (l.foldl (fun acc vin => acc.setSpentIfNew vin.outpoint) m).syncHeight = m.syncHeight
      ∧ (l.foldl (fun acc vin => acc.setSpentIfNew vin.outpoint) m).txmap = m.txmap := by
  induction l with
  | nil => intro m; exact ⟨rfl, rfl, rfl⟩
  | cons vin l ih =>
    intro m
    have h := setSpentIfNew_frame m vin.outpoint
    have h' := ih (m.setSpentIfNew vin.outpoint)
    simp only [List.foldl_cons]
    exact ⟨h'.1.trans h.1, h'.2.1.trans h.2.2.2.1, h'.2.2.trans h.2.2.2.2⟩

lemma updateMempool_frame (m : Mempool) (oracle : String → Nat) (tx : Transaction) :
    (m.updateMempool oracle tx).isLoaded = m.isLoaded
    ∧ (m.updateMempool oracle tx).syncHeight = m.syncHeight
    ∧ (m.updateMempool oracle tx).txmap = mapSet m.txmap tx.txid tx := by
  unfold Mempool.updateMempool
  have h := foldl_setSpent_frame tx.vin { m with txmap := mapSet m.txmap tx.txid tx }
  exact ⟨h.1, h.2.1, h.2.2⟩

lemma snapshotMarkSpent_frame (utxos : List SnapshotUTXO) (txid : String) :
    ∀ (vs : List CTxOut) (m : Mempool),
      (snapshotMarkSpent utxos txid m vs).isLoaded = m.isLoaded
      ∧ (snapshotMarkSpent utxos txid m vs).balance = m.balance
      ∧ (snapshotMarkSpent utxos txid m vs).coldBalance = m.coldBalance
      ∧ (snapshotMarkSpent utxos txid m vs).syncHeight = m.syncHeight
      ∧ (snapshotMarkSpent utxos txid m vs).txmap = m.txmap := by
  intro vs
  induction vs with
  | nil => intro m; exact ⟨rfl, rfl, rfl, rfl, rfl⟩
  | cons vout rest ih =>
    intro m
    unfold snapshotMarkSpent
    split
    · exact ih _
    · exact ih m

lemma utxoStep_syncHeight (fetch : String → Transaction) (utxos : List SnapshotUTXO)
    (m : Mempool) (u : SnapshotUTXO) :
    (utxoStep fetch utxos m u).syncHeight = max m.syncHeight u.height
    ∧ (utxoStep fetch utxos m u).isLoaded = m.isLoaded := by
  unfold utxoStep
  split
  · exact ⟨rfl, rfl⟩
  · have h := snapshotMarkSpent_frame utxos (fetch u.txid).txid (fetch u.txid).vout
      { m with
        syncHeight := max m.syncHeight u.height,
        txmap := mapSet m.txmap (fetch u.txid).txid (fetch u.txid) }
    exact ⟨h.2.2.2.1, h.1⟩

lemma utxoLoop_syncHeight (fetch : String → Transaction) (utxos : List SnapshotUTXO)
    (rest : List SnapshotUTXO) :
    ∀ m : Mempool,
      (utxoLoop fetch utxos m rest).syncHeight
        = rest.foldl (fun h u => max h u.height) m.syncHeight
      ∧ (utxoLoop fetch utxos m rest).isLoaded = m.isLoaded := by
  induction rest with
  | nil => intro m; exact ⟨rfl, rfl⟩
  | cons u rest ih =>
    intro m
    have hs := utxoStep_syncHeight fetch utxos m u
    have h := ih (utxoStep fetch utxos m u)
    refine ⟨?_, h.2.trans hs.2⟩
    rw [show utxoLoop fetch utxos m (u :: rest)
        = utxoLoop fetch utxos (utxoStep fetch utxos m u) rest from rfl]
    rw [h.1, hs.1, List.foldl_cons]

/-! ### C8: `isSpent` on an unrecorded outpoint -/

/-- C8 (counterexample to the claim as stated): on the multimap tracker of
`src/scripts/mempool.js`, an outpoint whose txid key is absent from
`spent` makes `isSpent` evaluate to `undefined` (the optional chaining
short-circuits), which is not the boolean `false`. -/
theorem C8_counterexample :
    Mempool.isSpentRaw mempoolNew { txid := "a", n := 0 } = none
    ∧ Mempool.isSpentRaw mempoolNew { txid := "a", n := 0 } ≠ some false := by
  exact ⟨rfl, by decide⟩

/-- C8 (amended): an outpoint with no entry in the spent/status map is
never reported spent: the multimap variant's `isSpent` coerces to the
boolean `false` (its raw value being `undefined` when the txid key is
absent), and the bitmask variant's `isSpent` returns the boolean `false`
outright. -/
theorem C8_isSpent_absent :
    (∀ (m : Mempool) (op : COutpoint),
        (∀ pr ∈ m.spent, ¬(pr.1 = op.txid ∧ pr.2.n = op.n)) →
          m.isSpent op = false)
    ∧ (∀ (m : Mempool) (op : COutpoint),
        (∀ pr ∈ m.spent, pr.1 ≠ op.txid) → m.isSpentRaw op = none)
    ∧ (∀ (mb : MempoolB) (op : COutpoint),
        (∀ pr ∈ mb.outpointStatus, pr.1 ≠ op) → mb.isSpent op = false) := by
  refine ⟨?_, ?_, ?_⟩
  · intro m op h
    rw [isSpent_eq_any, List.any_eq_false]
    intro pr hpr
    have := h pr hpr
    simp only [Bool.and_eq_true, beq_iff_eq]
    exact fun hc => this ⟨hc.1, hc.2⟩
  · intro m op h
    unfold Mempool.isSpentRaw Multimap.getList
    have : m.spent.any (fun p => p.1 == op.txid) = false := by
      rw [List.any_eq_false]
      intro pr hpr
      simp only [beq_iff_eq]
      exact h pr hpr
    simp [this]
  · intro mb op h
    unfold MempoolB.isSpent MempoolB.getOutpointStatus
    have : mb.outpointStatus.find? (fun p => p.1 == op) = none := by
      rw [List.find?_eq_none]
      intro pr hpr
      simp only [beq_iff_eq]
      exact h pr hpr
    rw [this]
    rfl

/-- Witness for C8: concrete evaluations through `C8_isSpent_absent`. -/
theorem C8_witness :
    Mempool.isSpent mempoolNew { txid := "a", n := 0 } = false
    ∧ Mempool.isSpentRaw mempoolNew { txid := "a", n := 0 } = none
    ∧ MempoolB.isSpent { outpointStatus := [] } { txid := "a", n := 0 } = false :=
  ⟨C8_isSpent_absent.1 mempoolNew _ (by intro pr hpr; cases hpr),
   C8_isSpent_absent.2.1 mempoolNew _ (by intro pr hpr; cases hpr),
   C8_isSpent_absent.2.2 { outpointStatus := [] } _ (by intro pr hpr; cases hpr)⟩

/-! ### C4: refusing a second initial snapshot -/

/-- C4: when the ledger has already completed its initial load, the
`'utxo'` handler invoked with any non-empty snapshot reports the
precondition violation (the `console.error`, recorded as the `true` flag)
and leaves the ledger state unchanged. -/
theorem C4_double_load_refused (oracle : String → Nat) (fetch : String → Transaction)
    (m : Mempool) (us : List SnapshotUTXO)
    (hl : m.isLoaded = true) (hus : us ≠ []) :
    utxoHandler oracle fetch m us = (m, true) := by
  cases us with
  | nil => exact absurd rfl hus
  | cons u us' => simp [utxoHandler, hl]

/-- Witness for C4. -/
theorem C4_witness :
    utxoHandler (fun _ => 0) (fun t => { txid := t, blockHeight := -1, vin := [], vout := [] })
        { mempoolNew with isLoaded := true }
        [{ txid := "a", vout := 0, height := 5 }]
      = ({ mempoolNew with isLoaded := true }, true) :=
  C4_double_load_refused _ _ _ _ rfl (by simp)

/-! ### C3: stale recent-transaction batches are dropped -/

lemma recentTxsLoop_stale (oracle : String → Nat) (fetch : String → Transaction)
    (m : Mempool) (txs : List RecentTx)
    (hh : ∀ e ∈ txs, e.blockHeight < m.syncHeight) :
    recentTxsLoop oracle fetch m txs = (m, []) := by
  induction txs with
  | nil => rfl
  | cons e rest ih =>
    have h1 : m.syncHeight > e.blockHeight := hh e (by simp)
    unfold recentTxsLoop
    rw [if_pos h1]
    exact ih (fun e' he' => hh e' (by simp [he']))

lemma recentTxs_drop_stale (oracle : String → Nat) (fetch : String → Transaction)
    (m : Mempool) (txs : List RecentTx)
    (hl : m.isLoaded = true) (hh : ∀ e ∈ txs, e.blockHeight < m.syncHeight) :
    recentTxsHandler oracle fetch m txs = (m, []) := by
  unfold recentTxsHandler
  rw [hl]
  simpa using recentTxsLoop_stale oracle fetch m txs hh

/-- C3: on a loaded ledger, a `'recent_txs'` batch whose entries all sit
strictly below the sync high-water mark leaves the whole ledger state
unchanged and fetches nothing from the network. -/
theorem C3_stale_batch_noop (oracle : String → Nat) (fetch : String → Transaction)
    (m : Mempool) (txs : List RecentTx)
    (hl : m.isLoaded = true)
    (hh : ∀ e ∈ txs, e.blockHeight < m.syncHeight) :
    recentTxsHandler oracle fetch m txs = (m, []) :=
  recentTxs_drop_stale oracle fetch m txs hl hh

/-- Witness for C3. -/
theorem C3_witness :
    recentTxsHandler (fun _ => 0)
        (fun t => { txid := t, blockHeight := 3, vin := [], vout := [] })
        { mempoolNew with isLoaded := true, syncHeight := 100 }
        [{ txid := "a", blockHeight := 5 }, { txid := "b", blockHeight := 99 }]
      = ({ mempoolNew with isLoaded := true, syncHeight := 100 }, []) :=
  C3_stale_batch_noop _ _ _ _ rfl (by decide)

/-! ### C9: the cached balances match a fresh recomputation -/

/-- `refreshBalances` writes exactly the two cached totals that a fresh
`getBalanceNew` pass over the resulting state would produce. -/
lemma refreshBalances_self (m : Mempool) (oracle : String → Nat) :
    (m.refreshBalances oracle).balance
      = (m.refreshBalances oracle).getBalanceNew oracle UTXO_WALLET_STATE.SPENDABLE
    ∧ (m.refreshBalances oracle).coldBalance
      = (m.refreshBalances oracle).getBalanceNew oracle UTXO_WALLET_STATE.SPENDABLE_COLD := by
  constructor
  · rw [getBalanceNew_congr m (m.refreshBalances oracle) rfl rfl oracle
      UTXO_WALLET_STATE.SPENDABLE]
    rfl
  · rw [getBalanceNew_congr m (m.refreshBalances oracle) rfl rfl oracle
      UTXO_WALLET_STATE.SPENDABLE_COLD]
    exact getBalanceNew_congr m _ rfl rfl oracle UTXO_WALLET_STATE.SPENDABLE_COLD

/-- Reduction of the `'utxo'` handler in the case it actually runs. -/
lemma utxoHandler_run (oracle : String → Nat) (fetch : String → Transaction)
    (m : Mempool) (us : List SnapshotUTXO)
    (hl : m.isLoaded = false) (hus : us ≠ []) :
    utxoHandler oracle fetch m us
      = (Mempool.refreshBalances { utxoLoop fetch us m us with isLoaded := true } oracle,
          false) := by
  cases us with
  | nil => exact absurd rfl hus
  | cons u us' =>
    unfold utxoHandler
    rw [hl]
    simp

/-- C9: after a completed ingestion (a `'utxo'` snapshot load that was not
refused, or any `updateMempool`), the cached `#balance` and `#coldBalance`
equal a fresh `getBalanceNew` recomputation over the resulting state, with
the `SPENDABLE` resp. `SPENDABLE_COLD` filters, for the fixed ownership
oracle. -/
theorem C9_cached_balances (oracle : String → Nat) (fetch : String → Transaction) :
    (∀ (m : Mempool) (us : List SnapshotUTXO), m.isLoaded = false → us ≠ [] →
      ((utxoHandler oracle fetch m us).1.balance
          = (utxoHandler oracle fetch m us).1.getBalanceNew oracle
              UTXO_WALLET_STATE.SPENDABLE
        ∧ (utxoHandler oracle fetch m us).1.coldBalance
          = (utxoHandler oracle fetch m us).1.getBalanceNew oracle
              UTXO_WALLET_STATE.SPENDABLE_COLD))
    ∧ (∀ (m : Mempool) (tx : Transaction),
      ((m.updateMempool oracle tx).balance
          = (m.updateMempool oracle tx).getBalanceNew oracle
              UTXO_WALLET_STATE.SPENDABLE
        ∧ (m.updateMempool oracle tx).coldBalance
          = (m.updateMempool oracle tx).getBalanceNew oracle
              UTXO_WALLET_STATE.SPENDABLE_COLD)) := by
  constructor
  · intro m us hl hus
    rw [utxoHandler_run oracle fetch m us hl hus]
    dsimp only
    exact refreshBalances_self _ oracle
  · intro m tx
    have h : m.updateMempool oracle tx
        = (tx.vin.foldl (fun (acc : Mempool) vin => acc.setSpentIfNew vin.outpoint)
            { m with txmap := mapSet m.txmap tx.txid tx }).refreshBalances oracle := rfl
    rw [h]
    exact refreshBalances_self _ oracle

/-- A fixed ownership oracle used by concrete evaluations. -/
def oracleW : String → Nat := fun _ => 1

/-- A fixed fetch oracle used by concrete evaluations: every txid resolves
to a confirmed transaction with a single 7-satoshi output at index 0. -/
def fetchW : String → Transaction := fun t =>
  { txid := t, blockHeight := 5, vin := [],
    vout := [{ outpoint := { txid := t, n := 0 }, script := "s", value := 7 }] }

/-- A one-element snapshot used by concrete evaluations. -/
def usW : List SnapshotUTXO := [{ txid := "a", vout := 0, height := 5 }]

/-- A concrete transaction used by concrete evaluations. -/
def txW : Transaction := { txid := "b", blockHeight := 5, vin := [], vout := [] }

/-- Witness for C9. -/
theorem C9_witness :
    ((utxoHandler oracleW fetchW mempoolNew usW).1.balance
      = (utxoHandler oracleW fetchW mempoolNew usW).1.getBalanceNew oracleW
          UTXO_WALLET_STATE.SPENDABLE)
    ∧ ((mempoolNew.updateMempool oracleW txW).coldBalance
      = (mempoolNew.updateMempool oracleW txW).getBalanceNew oracleW
          UTXO_WALLET_STATE.SPENDABLE_COLD) :=
  ⟨((C9_cached_balances oracleW fetchW).1 mempoolNew usW rfl (by decide)).1,
   ((C9_cached_balances oracleW fetchW).2 mempoolNew txW).2⟩

/-! ### C10: `reset` keeps the high-water mark -/

lemma foldl_max_le_init (l : List SnapshotUTXO) :
    ∀ i : Int, i ≤ l.foldl (fun h u => max h u.height) i := by
  induction l with
  | nil => intro i; exact le_refl i
  | cons u l ih => intro i; exact le_trans (le_max_left i u.height) (ih _)

lemma foldl_max_mem (l : List SnapshotUTXO) :
    ∀ u ∈ l, ∀ i : Int, u.height ≤ l.foldl (fun h u => max h u.height) i := by
  induction l with
  | nil => intro u hu; cases hu
  | cons v l ih =>
    intro u hu i
    rcases List.mem_cons.mp hu with h | h
    · subst h; exact le_trans (le_max_right i u.height) (foldl_max_le_init l _)
    · exact ih u h _

/-- C10: `reset()` clears the loaded flag and both containers but leaves
`#syncHeight` untouched; a subsequent snapshot load therefore ends with
the high-water mark equal to the maximum of the old mark and the new
snapshot's heights, and a recent-transaction batch entirely below the old
mark is still dropped. -/
theorem C10_reset_keeps_syncHeight (oracle : String → Nat)
    (fetch : String → Transaction) (m : Mempool) (us : List SnapshotUTXO)
    (txs : List RecentTx) (hus : us ≠ [])
    (htxs : ∀ e ∈ txs, e.blockHeight < m.syncHeight) :
    (m.reset.isLoaded = false ∧ m.reset.txmap = [] ∧ m.reset.spent = []
      ∧ m.reset.syncHeight = m.syncHeight)
    ∧ (utxoHandler oracle fetch m.reset us).1.syncHeight
        = us.foldl (fun h u => max h u.height) m.syncHeight
    ∧ m.syncHeight ≤ (utxoHandler oracle fetch m.reset us).1.syncHeight
    ∧ (∀ u ∈ us, u.height ≤ (utxoHandler oracle fetch m.reset us).1.syncHeight)
    ∧ recentTxsHandler oracle fetch (utxoHandler oracle fetch m.reset us).1 txs
        = ((utxoHandler oracle fetch m.reset us).1, []) := by
  have hrun := utxoHandler_run oracle fetch m.reset us rfl hus
  have hsync : (utxoHandler oracle fetch m.reset us).1.syncHeight
      = us.foldl (fun h u => max h u.height) m.syncHeight := by
    rw [hrun]
    exact (utxoLoop_syncHeight fetch us us m.reset).1
  refine ⟨⟨rfl, rfl, rfl, rfl⟩, hsync, ?_, ?_, ?_⟩
  · rw [hsync]; exact foldl_max_le_init us m.syncHeight
  · intro u hu; rw [hsync]; exact foldl_max_mem us u hu m.syncHeight
  · have hload : (utxoHandler oracle fetch m.reset us).1.isLoaded = true := by
      rw [hrun]
      rfl
    exact recentTxs_drop_stale oracle fetch _ txs hload
      (fun e he => lt_of_lt_of_le (htxs e he)
        (by rw [hsync]; exact foldl_max_le_init us m.syncHeight))

/-- A loaded ledger with mark 50, used by concrete evaluations. -/
def mW : Mempool := { mempoolNew with isLoaded := true, syncHeight := 50 }

/-- A fixed fetch oracle with empty transactions at height 60. -/
def fetchW2 : String → Transaction := fun t =>
  { txid := t, blockHeight := 60, vin := [], vout := [] }

/-- A one-element snapshot at height 60. -/
def usW2 : List SnapshotUTXO := [{ txid := "a", vout := 0, height := 60 }]

/-- A recent-transaction batch entirely below mark 50. -/
def txsW : List RecentTx := [{ txid := "c", blockHeight := 3 }]

/-- Witness for C10. -/
theorem C10_witness :
    (mW.reset.isLoaded = false ∧ mW.reset.txmap = [] ∧ mW.reset.spent = []
      ∧ mW.reset.syncHeight = mW.syncHeight)
    ∧ (utxoHandler oracleW fetchW2 mW.reset usW2).1.syncHeight
        = usW2.foldl (fun h u => max h u.height) mW.syncHeight
    ∧ mW.syncHeight ≤ (utxoHandler oracleW fetchW2 mW.reset usW2).1.syncHeight
    ∧ (∀ u ∈ usW2,
        u.height ≤ (utxoHandler oracleW fetchW2 mW.reset usW2).1.syncHeight)
    ∧ recentTxsHandler oracleW fetchW2 (utxoHandler oracleW fetchW2 mW.reset usW2).1 txsW
        = ((utxoHandler oracleW fetchW2 mW.reset usW2).1, []) :=
  C10_reset_keeps_syncHeight oracleW fetchW2 mW usW2 txsW (by decide) (by decide)

/-! ### C6: the incoming-message handler -/

lemma find?_replace {α : Type} (l : List (String × α)) (k : String) (v : α)
    (h : l.any (fun q => q.1 == k) = true) :
    (l.map (fun q => if q.1 == k then (k, v) else q)).find? (fun q => q.1 == k)
      = some (k, v) := by
  induction l with
  | nil => simp at h
  | cons p l ih =>
    simp only [List.map_cons]
    cases hp : (p.1 == k) with
    | true =>
      rw [if_pos rfl]
      exact List.find?_cons_of_pos _ (by simp)
    | false =>
      rw [if_neg (by simp)]
      rw [List.find?_cons_of_neg _ (by simp [hp])]
      apply ih
      rw [List.any_cons, hp, Bool.false_or] at h
      exact h

lemma find?_append_of_none {α : Type} (l l' : List (String × α))
    (p : String × α → Bool) (h : l.find? p = none) :
    (l ++ l').find? p = l'.find? p := by
  induction l with
  | nil => rfl
  | cons a l ih =>
    cases ha : p a with
    | true => simp [List.find?_cons_of_pos _ ha] at h
    | false =>
      rw [List.cons_append, List.find?_cons_of_neg _ (by simp [ha])]
      apply ih
      rw [List.find?_cons_of_neg _ (by simp [ha])] at h
      exact h

lemma assocGet_assocSet_self {α : Type} (l : List (String × α)) (k : String) (v : α) :
    assocGet (assocSet l k v) k = some v := by
  unfold assocSet
  by_cases h : l.any (fun q => q.1 == k) = true
  · rw [if_pos h]
    unfold assocGet
    rw [find?_replace l k v h]
    rfl
  · have h' : l.any (fun q => q.1 == k) = false := by
      cases hq : l.any (fun q => q.1 == k)
      · rfl
      · exact absurd hq h
    rw [if_neg h]
    unfold assocGet
    have hn : l.find? (fun q => q.1 == k) = none := by
      rw [List.find?_eq_none]
      intro x hx
      rw [List.any_eq_false] at h'
      exact h' x hx
    rw [find?_append_of_none l [(k, v)] _ hn]
    rw [List.find?_cons_of_pos _ (by simp)]
    rfl

/-- C6: a message arriving while the socket is not `OPEN` is neither
delivered to any subscription nor cached; a message arriving while `OPEN`
is delivered to the registered subscription matching its correlation id
(when one exists) and is always cached under its id, leaving the
subscription table and connection state untouched. -/
theorem C6_onmessage (α : Type) (net : WSClient α) (msg : WSMessage α) :
    (net.readyState ≠ WebSocketOPEN → onMessage net msg = (net, none))
    ∧ (net.readyState = WebSocketOPEN →
        ((∀ f, assocGet net.subscriptions msg.id = some f →
            (onMessage net msg).2 = some (f, msg.data))
          ∧ (assocGet net.subscriptions msg.id = none → (onMessage net msg).2 = none)
          ∧ assocGet (onMessage net msg).1.cachedResults msg.id = some msg.data
          ∧ (onMessage net msg).1.subscriptions = net.subscriptions
          ∧ (onMessage net msg).1.readyState = net.readyState)) := by
  constructor
  · intro h
    have hb : (net.readyState != WebSocketOPEN) = true := by
      simp [bne_iff_ne, h]
    rw [onMessage, if_pos hb]
  · intro h
    have hb : (net.readyState != WebSocketOPEN) = false := by
      simp [bne_iff_ne, h]
    refine ⟨?_, ?_, ?_, ?_, ?_⟩
    · intro f hf
      rw [onMessage, if_neg (by simp [hb])]
      simp [hf]
    · intro hf
      rw [onMessage, if_neg (by simp [hb])]
      simp [hf]
    · rw [onMessage, if_neg (by simp [hb])]
      exact assocGet_assocSet_self net.cachedResults msg.id msg.data
    · rw [onMessage, if_neg (by simp [hb])]
    · rw [onMessage, if_neg (by simp [hb])]

/-- Witness for C6: a concrete delivery on an `OPEN` socket and a concrete
drop on a `CLOSED` one. -/
theorem C6_witness :
    ((onMessage { readyState := 1, subscriptions := [("0", 7)], cachedResults := [] }
        { id := "0", data := (42 : Nat) }).2 = some (7, 42)
      ∧ assocGet (onMessage
          { readyState := 1, subscriptions := [("0", 7)], cachedResults := [] }
          { id := "0", data := (42 : Nat) }).1.cachedResults "0" = some 42)
    ∧ onMessage { readyState := 3, subscriptions := [("0", 7)], cachedResults := [] }
        { id := "0", data := (42 : Nat) }
      = ({ readyState := 3, subscriptions := [("0", 7)], cachedResults := [] }, none) :=
  ⟨⟨((C6_onmessage Nat _ _).2 rfl).1 7 rfl,
    ((C6_onmessage Nat _ _).2 rfl).2.2.1⟩,
   (C6_onmessage Nat
      { readyState := 3, subscriptions := [("0", 7)], cachedResults := [] }
      { id := "0", data := (42 : Nat) }).1 (by decide)⟩

/-! ### C5: the bounded retry loop of `sendAndWaitForAnswer` -/

lemma sendLoopAux_count (α : Type) (envs : Nat → AttemptEnv α) :
    ∀ (fuel attempt : Nat), (sendLoopAux envs attempt fuel).2 ≤ fuel := by
  intro fuel
  induction fuel with
  | zero => intro attempt; exact le_refl 0
  | succ fuel ih =>
    intro attempt
    cases hr : runAttempt (envs attempt) with
    | success d s =>
      simp only [sendLoopAux, hr]
      exact Nat.succ_le_succ (Nat.zero_le fuel)
    | failure b s =>
      simp only [sendLoopAux, hr]
      exact Nat.succ_le_succ (ih (attempt + 1))

lemma sendLoopAux_error (α : Type) (envs : Nat → AttemptEnv α) :
    ∀ (fuel attempt : Nat),
      (∀ k, attempt ≤ k → k < attempt + fuel →
        ∀ d s, runAttempt (envs k) ≠ .success d s) →
      (sendLoopAux envs attempt fuel).1
        = .error "Failed to communicate with the explorer" := by
  intro fuel
  induction fuel with
  | zero => intro attempt _; rfl
  | succ fuel ih =>
    intro attempt h
    cases hr : runAttempt (envs attempt) with
    | success d s => exact absurd hr (h attempt le_rfl (by omega) d s)
    | failure b s =>
      simp only [sendLoopAux, hr]
      exact ih (attempt + 1) (fun k hk1 hk2 => h k (by omega) (by omega))

lemma runAttempt_error_first (α : Type) (env : AttemptEnv α) (r : WSResp α)
    (h1 : env.avail 0 = some r) (h2 : r.error = true) :
    runAttempt env = .failure true 1000 := by
  have hp : pollLimit = 5999 + 1 := rfl
  unfold runAttempt
  rw [hp]
  simp only [pollAux, h1, h2, if_true]

/-- C5: `sendAndWaitForAnswer` performs at most `maxAttempts = 10` send
attempts; each attempt polls the response cache every `frequency = 100` ms
for up to `maxAwaitTime / frequency = 6000` iterations (the 600-second
ceiling); a cached response carrying an application-level error makes the
attempt sleep 1000 ms and fail (consuming one attempt of the budget); and
when no attempt yields a non-error response, the call fails with the
`'Failed to communicate with the explorer'` error instead of returning a
value. -/
theorem C5_send_retry_budget (α : Type) (envs : Nat → AttemptEnv α) :
    (sendAndWaitForAnswer envs).2 ≤ maxAttempts
    ∧ (maxAttempts = 10 ∧ frequency = 100 ∧ maxAwaitTime = 600 * 1000
        ∧ pollLimit = 6000)
    ∧ (∀ (env : AttemptEnv α) (r : WSResp α),
        env.avail 0 = some r → r.error = true →
          runAttempt env = .failure true 1000)
    ∧ ((∀ k, 1 ≤ k → k ≤ maxAttempts → ∀ d s, runAttempt (envs k) ≠ .success d s) →
        (sendAndWaitForAnswer envs).1
          = .error "Failed to communicate with the explorer") := by
  refine ⟨sendLoopAux_count α envs maxAttempts 1, ⟨rfl, rfl, rfl, rfl⟩,
    runAttempt_error_first α, ?_⟩
  intro h
  exact sendLoopAux_error α envs maxAttempts 1
    (fun k hk1 hk2 => h k hk1 (by omega))

/-- An environment in which every attempt observes an immediate
connection swap, so every attempt fails. -/
def envsFail : Nat → AttemptEnv Nat :=
  fun _ => { avail := fun _ => none, swapAfter := fun _ => true }

/-- An environment whose first poll observes a cached application-level
error. -/
def envErr : AttemptEnv Nat :=
  { avail := fun _ => some { error := true, data := 0 }, swapAfter := fun _ => false }

/-- Witness for C5. -/
theorem C5_witness :
    (sendAndWaitForAnswer envsFail).2 ≤ maxAttempts
    ∧ runAttempt envErr = .failure true 1000
    ∧ (sendAndWaitForAnswer envsFail).1
        = .error "Failed to communicate with the explorer" :=
  ⟨(C5_send_retry_budget Nat envsFail).1,
   (C5_send_retry_budget Nat envsFail).2.2.1 envErr { error := true, data := 0 } rfl rfl,
   (C5_send_retry_budget Nat envsFail).2.2.2 (fun k _ _ d s hc => by
      rw [show runAttempt (envsFail k) = .failure false 100 from rfl] at hc
      exact AttemptOutcome.noConfusion hc)⟩

/-! ### C2: output selection (`getUTXOs` with a target) -/

/-- The per-output acceptance test of the `getUTXOs`/`getBalanceNew`
scans: not spent and ownership state intersecting the filter. -/
def keepOut (m : Mempool) (oracle : String → Nat) (filter : Nat) (v : CTxOut) : Bool :=
  !(m.isSpent v.outpoint) && !((oracle v.script &&& filter) == 0)

/-- All unspent, filter-matching outputs of the ledger in scan order
(respecting the confirmation filter): what a full scan of `getUTXOs`
returns. -/
def allMatching (m : Mempool) (oracle : String → Nat) (filter : Nat)
    (onlyConfirmed : Bool) : List CTxOut :=
  (m.txmap.map (fun p =>
    if onlyConfirmed && !p.2.isConfirmed then []
    else p.2.vout.filter (keepOut m oracle filter))).flatten

/-- Total value of a list of outputs. -/
def sumVal (l : List CTxOut) : Nat := (l.map (fun v => v.value)).sum

lemma sumVal_append (l1 l2 : List CTxOut) :
    sumVal (l1 ++ l2) = sumVal l1 + sumVal l2 := by
  simp [sumVal]

lemma voutLoop_spec (m : Mempool) (oracle : String → Nat) (filter : Nat)
    (t : Option Nat) (vs : List CTxOut) :
    ∀ (utxos : List CTxOut) (tot : Nat), tot = sumVal utxos →
      (∀ u' tot', getUTXOsVoutLoop m oracle filter t vs utxos tot = Sum.inl (u', tot') →
        u' = utxos ++ vs.filter (keepOut m oracle filter) ∧ tot' = sumVal u')
      ∧ (∀ u', getUTXOsVoutLoop m oracle filter t vs utxos tot = Sum.inr u' →
        ∃ pre suf, vs.filter (keepOut m oracle filter) = pre ++ suf
          ∧ u' = utxos ++ pre ∧ earlyEnough t (sumVal u') = true) := by
  induction vs with
  | nil =>
    intro utxos tot htot
    constructor
    · intro u' tot' h
      simp only [getUTXOsVoutLoop, Sum.inl.injEq, Prod.mk.injEq] at h
      obtain ⟨h1, h2⟩ := h
      subst h1; subst h2
      simp [htot]
    · intro u' h
      exact Sum.noConfusion h
  | cons v vs ih =>
    intro utxos tot htot
    cases hs : m.isSpent v.outpoint with
    | true =>
      have hk : keepOut m oracle filter v = false := by simp [keepOut, hs]
      have hstep : getUTXOsVoutLoop m oracle filter t (v :: vs) utxos tot
          = getUTXOsVoutLoop m oracle filter t vs utxos tot := by
        simp [getUTXOsVoutLoop, hs]
      have hfil : (v :: vs).filter (keepOut m oracle filter)
          = vs.filter (keepOut m oracle filter) := by
        simp [List.filter_cons, hk]
      rw [hstep, hfil]
      exact ih utxos tot htot
    | false =>
      cases ho : ((oracle v.script &&& filter) == 0) with
      | true =>
        have hk : keepOut m oracle filter v = false := by simp [keepOut, hs, ho]
        have hstep : getUTXOsVoutLoop m oracle filter t (v :: vs) utxos tot
            = getUTXOsVoutLoop m oracle filter t vs utxos tot := by
          simp [getUTXOsVoutLoop, hs, ho]
        have hfil : (v :: vs).filter (keepOut m oracle filter)
            = vs.filter (keepOut m oracle filter) := by
          simp [List.filter_cons, hk]
        rw [hstep, hfil]
        exact ih utxos tot htot
      | false =>
        have hkeep : keepOut m oracle filter v = true := by simp [keepOut, hs, ho]
        have hfil : (v :: vs).filter (keepOut m oracle filter)
            = v :: vs.filter (keepOut m oracle filter) := by
          simp [List.filter_cons, hkeep]
        have htot' : tot + v.value = sumVal (utxos ++ [v]) := by
          rw [sumVal_append, htot]
          simp [sumVal]
        cases he : earlyEnough t (tot + v.value) with
        | true =>
          have hstep : getUTXOsVoutLoop m oracle filter t (v :: vs) utxos tot
              = Sum.inr (utxos ++ [v]) := by
            simp [getUTXOsVoutLoop, hs, ho, he]
          rw [hstep, hfil]
          constructor
          · intro u' tot' h
            exact Sum.noConfusion h
          · intro u' h
            have h1 : utxos ++ [v] = u' := by injection h
            subst h1
            refine ⟨[v], vs.filter (keepOut m oracle filter), rfl, rfl, ?_⟩
            rw [← htot']
            exact he
        | false =>
          have hstep : getUTXOsVoutLoop m oracle filter t (v :: vs) utxos tot
              = getUTXOsVoutLoop m oracle filter t vs (utxos ++ [v]) (tot + v.value) := by
            simp [getUTXOsVoutLoop, hs, ho, he]
          rw [hstep, hfil]
          have IH := ih (utxos ++ [v]) (tot + v.value) htot'
          constructor
          · intro u' tot' h
            obtain ⟨h1, h2⟩ := IH.1 u' tot' h
            refine ⟨?_, h2⟩
            rw [h1, List.append_assoc]
            rfl
          · intro u' h
            obtain ⟨pre, suf, hps, hu, he'⟩ := IH.2 u' h
            refine ⟨v :: pre, suf, ?_, ?_, he'⟩
            · rw [hps]
              rfl
            · rw [hu, List.append_assoc]
              rfl

lemma txLoop_spec (m : Mempool) (oracle : String → Nat) (filter : Nat)
    (t : Option Nat) (onlyC : Bool) (txs : List (String × Transaction)) :
    ∀ (utxos : List CTxOut) (tot : Nat), tot = sumVal utxos →
      ∃ pre suf,
        (txs.map (fun p =>
            if onlyC && !p.2.isConfirmed then []
            else p.2.vout.filter (keepOut m oracle filter))).flatten = pre ++ suf
        ∧ getUTXOsTxLoop m oracle filter t onlyC txs utxos tot = utxos ++ pre
        ∧ (suf = [] ∨ earlyEnough t (sumVal (utxos ++ pre)) = true) := by
  induction txs with
  | nil =>
    intro utxos tot htot
    exact ⟨[], [], rfl, by simp [getUTXOsTxLoop], Or.inl rfl⟩
  | cons p txs ih =>
    intro utxos tot htot
    cases hc : (onlyC && !p.2.isConfirmed) with
    | true =>
      have hstep : getUTXOsTxLoop m oracle filter t onlyC (p :: txs) utxos tot
          = getUTXOsTxLoop m oracle filter t onlyC txs utxos tot := by
        simp [getUTXOsTxLoop, hc]
      obtain ⟨pre, suf, h1, h2, h3⟩ := ih utxos tot htot
      refine ⟨pre, suf, ?_, by rw [hstep]; exact h2, h3⟩
      simp only [List.map_cons, hc, if_pos rfl, List.flatten_cons, List.nil_append]
      exact h1
    | false =>
      cases hv : getUTXOsVoutLoop m oracle filter t p.2.vout utxos tot with
      | inl pr =>
        obtain ⟨h1, h2⟩ := (voutLoop_spec m oracle filter t p.2.vout utxos tot htot).1
          pr.1 pr.2 (by rw [hv])
        have hstep : getUTXOsTxLoop m oracle filter t onlyC (p :: txs) utxos tot
            = getUTXOsTxLoop m oracle filter t onlyC txs pr.1 pr.2 := by
          simp [getUTXOsTxLoop, hc, hv]
        obtain ⟨pre, suf, hj, hl, hd⟩ := ih pr.1 pr.2 h2
        refine ⟨p.2.vout.filter (keepOut m oracle filter) ++ pre, suf, ?_, ?_, ?_⟩
        · simp only [List.map_cons, hc, List.flatten_cons, Bool.false_eq_true,
            if_false, hj, List.append_assoc]
        · rw [hstep, hl, h1, List.append_assoc]
        · rcases hd with hd | hd
          · exact Or.inl hd
          · refine Or.inr ?_
            rw [h1, List.append_assoc] at hd
            exact hd
      | inr u1 =>
        obtain ⟨pre0, suf0, hps, hu, he⟩ :=
          (voutLoop_spec m oracle filter t p.2.vout utxos tot htot).2 u1 hv
        have hstep : getUTXOsTxLoop m oracle filter t onlyC (p :: txs) utxos tot
            = u1 := by
          simp [getUTXOsTxLoop, hc, hv]
        refine ⟨pre0, suf0 ++ (txs.map (fun p =>
            if onlyC && !p.2.isConfirmed then []
            else p.2.vout.filter (keepOut m oracle filter))).flatten, ?_, ?_, ?_⟩
        · simp only [List.map_cons, hc, List.flatten_cons, Bool.false_eq_true,
            if_false, hps, List.append_assoc]
        · rw [hstep, hu]
        · refine Or.inr ?_
          rw [← hu]
          exact he

lemma allMatching_mem (m : Mempool) (oracle : String → Nat) (filter : Nat)
    (onlyC : Bool) (v : CTxOut) (h : v ∈ allMatching m oracle filter onlyC) :
    m.isSpent v.outpoint = false ∧ ((oracle v.script &&& filter) == 0) = false := by
  unfold allMatching at h
  rw [List.mem_flatten] at h
  obtain ⟨l, hl, hv⟩ := h
  rw [List.mem_map] at hl
  obtain ⟨p, hp, rfl⟩ := hl
  by_cases hc : (onlyC && !p.2.isConfirmed) = true
  · rw [if_pos hc] at hv; cases hv
  · rw [if_neg hc] at hv
    rw [List.mem_filter] at hv
    have hk := hv.2
    unfold keepOut at hk
    rw [Bool.and_eq_true] at hk
    constructor
    · have h1 := hk.1; revert h1; cases m.isSpent v.outpoint <;> simp
    · have h2 := hk.2; revert h2; cases ((oracle v.script &&& filter) == 0) <;> simp

/-- C2: with a supplied target, `getUTXOs` returns unspent, filter-matching
outputs; the returned total is at least the target unless the total of all
matching outputs is below the target, in which case the full matching list
is returned; the result is always an initial segment of the full scan, a
proper initial segment only when the accumulated value exceeded
`target × 1.1`; and without a target the full scan is performed. -/
theorem C2_output_selection (m : Mempool) (oracle : String → Nat) (filter : Nat)
    (t : Nat) (onlyC : Bool) :
    (∀ v ∈ m.getUTXOs oracle filter (some t) onlyC,
        m.isSpent v.outpoint = false ∧ ((oracle v.script &&& filter) == 0) = false)
    ∧ (t ≤ sumVal (m.getUTXOs oracle filter (some t) onlyC)
        ∨ (sumVal (allMatching m oracle filter onlyC) < t
            ∧ m.getUTXOs oracle filter (some t) onlyC = allMatching m oracle filter onlyC))
    ∧ (∃ rest, allMatching m oracle filter onlyC
          = m.getUTXOs oracle filter (some t) onlyC ++ rest)
    ∧ (m.getUTXOs oracle filter (some t) onlyC ≠ allMatching m oracle filter onlyC →
        11 * t < 10 * sumVal (m.getUTXOs oracle filter (some t) onlyC))
    ∧ m.getUTXOs oracle filter none onlyC = allMatching m oracle filter onlyC := by
  obtain ⟨pre, suf, hj, hl, hd⟩ :=
    txLoop_spec m oracle filter (some t) onlyC m.txmap [] 0 rfl
  have hres : m.getUTXOs oracle filter (some t) onlyC = pre := by
    rw [Mempool.getUTXOs, hl]
    exact List.nil_append pre
  have hall : allMatching m oracle filter onlyC = pre ++ suf := hj
  have hsum : sumVal ([] ++ pre) = sumVal pre := by rw [List.nil_append]
  refine ⟨?_, ?_, ?_, ?_, ?_⟩
  · intro v hvmem
    apply allMatching_mem m oracle filter onlyC v
    rw [hall]
    rw [hres] at hvmem
    exact List.mem_append_left suf hvmem
  · rcases hd with hd | hd
    · subst hd
      rw [List.append_nil] at hall
      rcases le_or_lt t (sumVal (allMatching m oracle filter onlyC)) with h | h
      · exact Or.inl (by rw [hres, ← hall]; exact h)
      · exact Or.inr ⟨h, by rw [hres, hall]⟩
    · rw [List.nil_append] at hd
      simp only [earlyEnough] at hd
      have : 11 * t < 10 * sumVal pre := by
        rw [decide_eq_true_iff] at hd
        exact hd
      exact Or.inl (by rw [hres]; omega)
  · exact ⟨suf, by rw [hres, hall]⟩
  · intro hne
    rcases hd with hd | hd
    · subst hd
      rw [List.append_nil] at hall
      exact absurd (hres.trans hall.symm) hne
    · rw [List.nil_append] at hd
      simp only [earlyEnough] at hd
      rw [decide_eq_true_iff] at hd
      rw [hres]
      exact hd
  · obtain ⟨pre0, suf0, hj0, hl0, hd0⟩ :=
      txLoop_spec m oracle filter none onlyC m.txmap [] 0 rfl
    have hsuf0 : suf0 = [] := by
      rcases hd0 with h | h
      · exact h
      · exact absurd h (by simp [earlyEnough])
    subst hsuf0
    rw [List.append_nil] at hj0
    rw [Mempool.getUTXOs, hl0, List.nil_append, allMatching, hj0]

/-- Witness for C2: a ledger with one 7-satoshi spendable output,
target 5. -/
theorem C2_witness :
    (∀ v ∈ Mempool.getUTXOs
        { mempoolNew with txmap := [("a", fetchW "a")] } oracleW 1 (some 5) false,
        Mempool.isSpent { mempoolNew with txmap := [("a", fetchW "a")] } v.outpoint = false
          ∧ ((oracleW v.script &&& 1) == 0) = false)
    ∧ (5 ≤ sumVal (Mempool.getUTXOs
          { mempoolNew with txmap := [("a", fetchW "a")] } oracleW 1 (some 5) false)
        ∨ (sumVal (allMatching { mempoolNew with txmap := [("a", fetchW "a")] } oracleW 1 false) < 5
            ∧ Mempool.getUTXOs { mempoolNew with txmap := [("a", fetchW "a")] } oracleW 1
                (some 5) false
              = allMatching { mempoolNew with txmap := [("a", fetchW "a")] } oracleW 1 false)) :=
  ⟨(C2_output_selection { mempoolNew with txmap := [("a", fetchW "a")] } oracleW 1 5 false).1,
   (C2_output_selection { mempoolNew with txmap := [("a", fetchW "a")] } oracleW 1 5 false).2.1⟩

/-! ### C7: order-insensitivity of SPENT marking -/

/-- The outpoints referenced by the inputs of a transaction. -/
def vinOps (tx : Transaction) : List COutpoint := tx.vin.map (fun i => i.outpoint)

/-- Applying a sequence of `'recent_txs'` batches in order. -/
def applyBatches (oracle : String → Nat) (fetch : String → Transaction)
    (m : Mempool) (bs : List (List RecentTx)) : Mempool :=
  bs.foldl (fun m b => (recentTxsHandler oracle fetch m b).1) m

lemma outpoint_ext (a b : COutpoint) (h1 : a.txid = b.txid) (h2 : a.n = b.n) :
    a = b := by
  cases a; cases b
  cases h1; cases h2
  rfl

lemma boolEq_of_iff (a b : Bool) (h : a = true ↔ b = true) : a = b := by
  cases a <;> cases b <;> simp_all

lemma isSpent_setSpentIfNew (m : Mempool) (q op : COutpoint) :
    (m.setSpentIfNew q).isSpent op = true ↔ (m.isSpent op = true ∨ q = op) := by
  unfold Mempool.setSpentIfNew
  by_cases h : m.isSpent q = true
  · rw [if_pos h]
    constructor
    · exact Or.inl
    · rintro (h1 | rfl)
      · exact h1
      · exact h
  · rw [if_neg h]
    rw [isSpent_append]
    simp only [Bool.or_eq_true, Bool.and_eq_true, beq_iff_eq]
    constructor
    · rintro (h1 | ⟨h1, h2⟩)
      · exact Or.inl h1
      · exact Or.inr (outpoint_ext q op h1 h2)
    · rintro (h1 | rfl)
      · exact Or.inl h1
      · exact Or.inr ⟨rfl, rfl⟩

lemma isSpent_foldl_setSpent (l : List CTxIn) :
    ∀ (m : Mempool) (op : COutpoint),
      ((l.foldl (fun acc vin => acc.setSpentIfNew vin.outpoint) m).isSpent op = true
        ↔ (m.isSpent op = true ∨ ∃ vin ∈ l, vin.outpoint = op)) := by
  induction l with
  | nil => intro m op; simp
  | cons vin l ih =>
    intro m op
    rw [List.foldl_cons, ih (m.setSpentIfNew vin.outpoint) op, isSpent_setSpentIfNew]
    constructor
    · rintro ((h | h) | ⟨v, hv, hvo⟩)
      · exact Or.inl h
      · exact Or.inr ⟨vin, by simp, h⟩
      · exact Or.inr ⟨v, by simp [hv], hvo⟩
    · rintro (h | ⟨v, hv, hvo⟩)
      · exact Or.inl (Or.inl h)
      · rcases List.mem_cons.mp hv with rfl | hv
        · exact Or.inl (Or.inr hvo)
        · exact Or.inr ⟨v, hv, hvo⟩

lemma isSpent_updateMempool (m : Mempool) (oracle : String → Nat)
    (tx : Transaction) (op : COutpoint) :
    ((m.updateMempool oracle tx).isSpent op = true
      ↔ (m.isSpent op = true ∨ ∃ vin ∈ tx.vin, vin.outpoint = op)) := by
  have h : (m.updateMempool oracle tx).isSpent op
      = ((tx.vin.foldl (fun (acc : Mempool) vin => acc.setSpentIfNew vin.outpoint)
          { m with txmap := mapSet m.txmap tx.txid tx }).isSpent op) := rfl
  rw [h, isSpent_foldl_setSpent]
  have h2 : Mempool.isSpent { m with txmap := mapSet m.txmap tx.txid tx } op
      = m.isSpent op := rfl
  rw [h2]

lemma find?_map_replace_ne {α : Type} (l : List (String × α)) (k k' : String)
    (v : α) (h : k' ≠ k) :
    (l.map (fun p => if p.1 == k then (k, v) else p)).find? (fun p => p.1 == k')
      = l.find? (fun p => p.1 == k') := by
  induction l with
  | nil => rfl
  | cons p l ih =>
    simp only [List.map_cons]
    cases hp : (p.1 == k) with
    | true =>
      rw [if_pos rfl]
      have hpk : p.1 = k := beq_iff_eq.mp hp
      have hk1 : ((k, v).1 == k') = false := beq_eq_false_iff_ne.mpr (Ne.symm h)
      have hp1 : (p.1 == k') = false := by
        rw [hpk]; exact beq_eq_false_iff_ne.mpr (Ne.symm h)
      rw [List.find?_cons_of_neg _ (by simp [hk1]),
        List.find?_cons_of_neg _ (by simp [hp1])]
      exact ih
    | false =>
      rw [if_neg (by simp)]
      cases hq : (p.1 == k') with
      | true =>
        rw [List.find?_cons_of_pos _ (by simp [hq]),
          List.find?_cons_of_pos _ (by simp [hq])]
      | false =>
        rw [List.find?_cons_of_neg _ (by simp [hq]),
          List.find?_cons_of_neg _ (by simp [hq])]
        exact ih

lemma find?_append_single_ne {α : Type} (l : List (String × α)) (k k' : String)
    (v : α) (h : k' ≠ k) :
    (l ++ [(k, v)]).find? (fun p => p.1 == k') = l.find? (fun p => p.1 == k') := by
  induction l with
  | nil =>
    have hk1 : ((k, v).1 == k') = false := beq_eq_false_iff_ne.mpr (Ne.symm h)
    simp only [List.nil_append]
    rw [List.find?_cons_of_neg _ (by simp [hk1])]
  | cons p l ih =>
    cases hq : (p.1 == k') with
    | true =>
      rw [List.cons_append, List.find?_cons_of_pos _ (by simp [hq]),
        List.find?_cons_of_pos _ (by simp [hq])]
    | false =>
      rw [List.cons_append, List.find?_cons_of_neg _ (by simp [hq]),
        List.find?_cons_of_neg _ (by simp [hq])]
      exact ih

lemma mapGet_mapSet (mp : List (String × Transaction)) (k : String)
    (v : Transaction) (k' : String) :
    mapGet (mapSet mp k v) k' = if k' = k then some v else mapGet mp k' := by
  by_cases h : k' = k
  · subst h
    rw [if_pos rfl]
    exact assocGet_assocSet_self mp k' v
  · rw [if_neg h]
    unfold mapSet mapGet
    by_cases ha : mapHas mp k = true
    · rw [if_pos ha, find?_map_replace_ne mp k k' v h]
    · rw [if_neg ha, find?_append_single_ne mp k k' v h]

lemma hasConfirmedTx_mapSet (mp : List (String × Transaction)) (k : String)
    (v : Transaction) (k' : String) :
    hasConfirmedTx (mapSet mp k v) k'
      = if k' = k then v.isConfirmed else hasConfirmedTx mp k' := by
  unfold hasConfirmedTx
  rw [mapGet_mapSet]
  by_cases h : k' = k
  · rw [if_pos h, if_pos h]
  · rw [if_neg h, if_neg h]

/-- The SPENT set after a `'recent_txs'` loop pass, in closed form: an
outpoint is spent afterwards iff it was spent before, or some entry of
the batch names a transaction that was not already stored-and-confirmed
and whose fetched body spends the outpoint. -/
lemma recentLoop_isSpent_char (oracle : String → Nat) (fetch : String → Transaction)
    (hfetch : ∀ s, (fetch s).txid = s) :
    ∀ (es : List RecentTx) (m : Mempool),
      (∀ e ∈ es, m.syncHeight ≤ e.blockHeight) →
      ∀ op, ((recentTxsLoop oracle fetch m es).1.isSpent op = true
        ↔ (m.isSpent op = true
            ∨ ∃ e ∈ es, hasConfirmedTx m.txmap e.txid = false
                ∧ op ∈ vinOps (fetch e.txid))) := by
  intro es
  induction es with
  | nil => intro m hh op; simp [recentTxsLoop]
  | cons e es ih =>
    intro m hh op
    have hge : m.syncHeight ≤ e.blockHeight := hh e (by simp)
    have hng : ¬(m.syncHeight > e.blockHeight) := not_lt.mpr hge
    cases hcf : hasConfirmedTx m.txmap e.txid with
    | true =>
      have hstep : recentTxsLoop oracle fetch m (e :: es)
          = recentTxsLoop oracle fetch m es := by
        simp only [recentTxsLoop]
        rw [if_neg hng, if_pos hcf]
      rw [hstep, ih m (fun e' he' => hh e' (by simp [he'])) op]
      constructor
      · rintro (h | ⟨e', he', h1, h2⟩)
        · exact Or.inl h
        · exact Or.inr ⟨e', by simp [he'], h1, h2⟩
      · rintro (h | ⟨e', he', h1, h2⟩)
        · exact Or.inl h
        · rcases List.mem_cons.mp he' with rfl | he'
          · rw [hcf] at h1; cases h1
          · exact Or.inr ⟨e', he', h1, h2⟩
    | false =>
      have hstep : (recentTxsLoop oracle fetch m (e :: es)).1
          = (recentTxsLoop oracle fetch
              (m.updateMempool oracle (fetch e.txid)) es).1 := by
        simp only [recentTxsLoop]
        rw [if_neg hng, if_neg (by simp [hcf])]
      have hsync : (m.updateMempool oracle (fetch e.txid)).syncHeight
          = m.syncHeight := (updateMempool_frame m oracle (fetch e.txid)).2.1
      have hh' : ∀ e' ∈ es,
          (m.updateMempool oracle (fetch e.txid)).syncHeight ≤ e'.blockHeight :=
        fun e' he' => by rw [hsync]; exact hh e' (by simp [he'])
      have hkey : (fetch e.txid).txid = e.txid := hfetch e.txid
      have htxm : (m.updateMempool oracle (fetch e.txid)).txmap
          = mapSet m.txmap e.txid (fetch e.txid) := by
        rw [(updateMempool_frame m oracle (fetch e.txid)).2.2, hkey]
      have hupd := isSpent_updateMempool m oracle (fetch e.txid) op
      rw [hstep, ih (m.updateMempool oracle (fetch e.txid)) hh' op]
      constructor
      · rintro (h | ⟨e', he', h1, h2⟩)
        · rcases hupd.mp h with h | ⟨vin, hv, hvo⟩
          · exact Or.inl h
          · exact Or.inr ⟨e, by simp, hcf, List.mem_map.mpr ⟨vin, hv, hvo⟩⟩
        · by_cases he : e'.txid = e.txid
          · rw [he] at h2
            exact Or.inr ⟨e, by simp, hcf, h2⟩
          · rw [htxm, hasConfirmedTx_mapSet, if_neg he] at h1
            exact Or.inr ⟨e', by simp [he'], h1, h2⟩
      · rintro (h | ⟨e', he', h1, h2⟩)
        · exact Or.inl (hupd.mpr (Or.inl h))
        · rcases List.mem_cons.mp he' with rfl | he'
          · left
            apply hupd.mpr
            right
            obtain ⟨vin, hv, hvo⟩ := List.mem_map.mp h2
            exact ⟨vin, hv, hvo⟩
          · by_cases he : e'.txid = e.txid
            · left
              apply hupd.mpr
              right
              rw [he] at h2
              obtain ⟨vin, hv, hvo⟩ := List.mem_map.mp h2
              exact ⟨vin, hv, hvo⟩
            · right
              refine ⟨e', he', ?_, h2⟩
              rw [htxm, hasConfirmedTx_mapSet, if_neg he]
              exact h1

lemma recentTxsLoop_isLoaded (oracle : String → Nat) (fetch : String → Transaction) :
    ∀ (es : List RecentTx) (m : Mempool),
      (recentTxsLoop oracle fetch m es).1.isLoaded = m.isLoaded := by
  intro es
  induction es with
  | nil => intro m; rfl
  | cons e es ih =>
    intro m
    by_cases hg : m.syncHeight > e.blockHeight
    · have h : recentTxsLoop oracle fetch m (e :: es)
          = recentTxsLoop oracle fetch m es := by
        simp only [recentTxsLoop]; rw [if_pos hg]
      rw [h]; exact ih m
    · by_cases hc : hasConfirmedTx m.txmap e.txid = true
      · have h : recentTxsLoop oracle fetch m (e :: es)
            = recentTxsLoop oracle fetch m es := by
          simp only [recentTxsLoop]; rw [if_neg hg, if_pos hc]
        rw [h]; exact ih m
      · have h : (recentTxsLoop oracle fetch m (e :: es)).1
            = (recentTxsLoop oracle fetch
                (m.updateMempool oracle (fetch e.txid)) es).1 := by
          simp only [recentTxsLoop]; rw [if_neg hg, if_neg hc]
        rw [h, ih (m.updateMempool oracle (fetch e.txid))]
        exact (updateMempool_frame m oracle (fetch e.txid)).1

lemma recentTxsLoop_append (oracle : String → Nat) (fetch : String → Transaction) :
    ∀ (l1 l2 : List RecentTx) (m : Mempool),
      (recentTxsLoop oracle fetch m (l1 ++ l2)).1
        = (recentTxsLoop oracle fetch (recentTxsLoop oracle fetch m l1).1 l2).1 := by
  intro l1
  induction l1 with
  | nil => intro l2 m; rfl
  | cons e l1 ih =>
    intro l2 m
    by_cases hg : m.syncHeight > e.blockHeight
    · have h1 : recentTxsLoop oracle fetch m ((e :: l1) ++ l2)
          = recentTxsLoop oracle fetch m (l1 ++ l2) := by
        show recentTxsLoop oracle fetch m (e :: (l1 ++ l2)) = _
        simp only [recentTxsLoop]; rw [if_pos hg]
      have h2 : recentTxsLoop oracle fetch m (e :: l1)
          = recentTxsLoop oracle fetch m l1 := by
        simp only [recentTxsLoop]; rw [if_pos hg]
      rw [h1, h2]; exact ih l2 m
    · by_cases hc : hasConfirmedTx m.txmap e.txid = true
      · have h1 : recentTxsLoop oracle fetch m ((e :: l1) ++ l2)
            = recentTxsLoop oracle fetch m (l1 ++ l2) := by
          show recentTxsLoop oracle fetch m (e :: (l1 ++ l2)) = _
          simp only [recentTxsLoop]; rw [if_neg hg, if_pos hc]
        have h2 : recentTxsLoop oracle fetch m (e :: l1)
            = recentTxsLoop oracle fetch m l1 := by
          simp only [recentTxsLoop]; rw [if_neg hg, if_pos hc]
        rw [h1, h2]; exact ih l2 m
      · have h1 : (recentTxsLoop oracle fetch m ((e :: l1) ++ l2)).1
            = (recentTxsLoop oracle fetch
                (m.updateMempool oracle (fetch e.txid)) (l1 ++ l2)).1 := by
          show (recentTxsLoop oracle fetch m (e :: (l1 ++ l2))).1 = _
          simp only [recentTxsLoop]; rw [if_neg hg, if_neg hc]
        have h2 : (recentTxsLoop oracle fetch m (e :: l1)).1
            = (recentTxsLoop oracle fetch
                (m.updateMempool oracle (fetch e.txid)) l1).1 := by
          simp only [recentTxsLoop]; rw [if_neg hg, if_neg hc]
        rw [h1, h2]
        exact ih l2 (m.updateMempool oracle (fetch e.txid))

lemma applyBatches_eq (oracle : String → Nat) (fetch : String → Transaction) :
    ∀ (bs : List (List RecentTx)) (m : Mempool), m.isLoaded = true →
      applyBatches oracle fetch m bs = (recentTxsLoop oracle fetch m bs.flatten).1 := by
  intro bs
  induction bs with
  | nil => intro m _; rfl
  | cons b bs ih =>
    intro m hl
    have hh : recentTxsHandler oracle fetch m b = recentTxsLoop oracle fetch m b := by
      unfold recentTxsHandler; rw [hl]; rfl
    have hstep : applyBatches oracle fetch m (b :: bs)
        = applyBatches oracle fetch (recentTxsLoop oracle fetch m b).1 bs := by
      unfold applyBatches
      rw [List.foldl_cons, hh]
    rw [hstep, ih (recentTxsLoop oracle fetch m b).1
      (by rw [recentTxsLoop_isLoaded]; exact hl)]
    rw [List.flatten_cons, recentTxsLoop_append]

/-- C7: starting from a loaded ledger, applying recent-transaction batches
whose entries sit at or above the sync high-water mark in any order
consistent with non-decreasing height produces the same final SPENT set as
applying them in height order (SPENT marking is a monotonic OR-only
update). -/
theorem C7_spent_order_insensitive (oracle : String → Nat)
    (fetch : String → Transaction) (m : Mempool)
    (bs1 bs2 : List (List RecentTx))
    (hl : m.isLoaded = true)
    (hfetch : ∀ s, (fetch s).txid = s)
    (hperm : bs1.flatten.Perm bs2.flatten)
    (hh1 : ∀ e ∈ bs1.flatten, m.syncHeight ≤ e.blockHeight)
    (_hs1 : List.Sorted (fun a b : RecentTx => a.blockHeight ≤ b.blockHeight) bs1.flatten)
    (_hs2 : List.Sorted (fun a b : RecentTx => a.blockHeight ≤ b.blockHeight) bs2.flatten) :
    ∀ op, (applyBatches oracle fetch m bs1).isSpent op
        = (applyBatches oracle fetch m bs2).isSpent op := by
  intro op
  have hh2 : ∀ e ∈ bs2.flatten, m.syncHeight ≤ e.blockHeight :=
    fun e he => hh1 e (hperm.mem_iff.mpr he)
  rw [applyBatches_eq oracle fetch bs1 m hl, applyBatches_eq oracle fetch bs2 m hl]
  apply boolEq_of_iff
  rw [recentLoop_isSpent_char oracle fetch hfetch bs1.flatten m hh1 op,
    recentLoop_isSpent_char oracle fetch hfetch bs2.flatten m hh2 op]
  constructor
  · rintro (h | ⟨e, he, h1, h2⟩)
    · exact Or.inl h
    · exact Or.inr ⟨e, hperm.mem_iff.mp he, h1, h2⟩
  · rintro (h | ⟨e, he, h1, h2⟩)
    · exact Or.inl h
    · exact Or.inr ⟨e, hperm.mem_iff.mpr he, h1, h2⟩

/-- A fixed fetch oracle whose transactions spend outpoint `("x", 0)`. -/
def fetchW3 : String → Transaction := fun t =>
  { txid := t, blockHeight := 60,
    vin := [{ outpoint := { txid := "x", n := 0 }, scriptSig := "sig" }],
    vout := [] }

/-- Two single-entry batches at equal height, in the two orders. -/
def bs1W : List (List RecentTx) := [[{ txid := "a", blockHeight := 50 }],
  [{ txid := "b", blockHeight := 50 }]]

/-- The same batches in the opposite order. -/
def bs2W : List (List RecentTx) := [[{ txid := "b", blockHeight := 50 }],
  [{ txid := "a", blockHeight := 50 }]]

/-- Witness for C7, at the outpoint the transactions spend. -/
theorem C7_witness :
    (applyBatches oracleW fetchW3 mW bs1W).isSpent { txid := "x", n := 0 }
      = (applyBatches oracleW fetchW3 mW bs2W).isSpent { txid := "x", n := 0 } :=
  C7_spent_order_insensitive oracleW fetchW3 mW bs1W bs2W rfl (fun _ => rfl)
    (by decide) (by decide) (by decide) (by decide) { txid := "x", n := 0 }

/-! ### C1: balance after the initial snapshot load

The snapshot handler is characterised in closed form: after ingesting a
snapshot into an empty ledger, the transaction map holds exactly the
fetched transaction of each distinct snapshot txid, and an outpoint is
SPENT exactly when it belongs to a fetched transaction and is not listed
in the snapshot.  The balance then sums precisely the classified snapshot
outputs. -/

/-- Membership test used for the processed-txid bookkeeping. -/
def keyMem (P : List String) (t : String) : Bool := P.any (fun s => s == t)

/-- The txids already stored after processing a list of snapshot entries
(first occurrence order). -/
def accKeys (P : List String) : List SnapshotUTXO → List String
  | [] => P
  | u :: rest => accKeys (if keyMem P u.txid then P else P ++ [u.txid]) rest

/-- Outputs of a fetched transaction are positioned: the entry at index
`i` carries outpoint `(t, base + i)`.  This is the shape
`parseTransaction` produces from Blockbook data, where `out.n` is the
output's position. -/
def IndexedFrom (t : String) (base : Nat) (l : List CTxOut) : Prop :=
  ∀ (i : Nat) (v : CTxOut), l[i]? = some v → v.outpoint = { txid := t, n := base + i }

/-- The SPENT mark the snapshot load assigns: the outpoint belongs to the
fetched transaction of its txid and is not itself a snapshot entry. -/
def spentMark (fetch : String → Transaction) (us : List SnapshotUTXO)
    (op : COutpoint) : Bool :=
  (fetch op.txid).vout.any (fun v => v.outpoint.n == op.n)
    && !(tinB us op.txid op.n)

/-- Value of an output if its classification intersects the filter,
otherwise 0. -/
def clsVal (oracle : String → Nat) (f : Nat) (v : CTxOut) : Nat :=
  if (oracle v.script &&& f) == 0 then 0 else v.value

/-- The contribution of one output to `getBalanceNew`. -/
def balTerm (m : Mempool) (oracle : String → Nat) (f : Nat) (v : CTxOut) : Nat :=
  if m.isSpent v.outpoint then 0 else clsVal oracle f v

/-- The classified value found at position `j` of an output list. -/
def voutAt (vout : List CTxOut) (oracle : String → Nat) (f : Nat) (j : Nat) : Nat :=
  match vout[j]? with
  | some v => clsVal oracle f v
  | none => 0

/-- The right-hand side of the claim, per snapshot entry: the value of the
snapshot output when its ownership classification intersects the
filter. -/
def snapshotEntryValue (fetch : String → Transaction) (oracle : String → Nat)
    (f : Nat) (u : SnapshotUTXO) : Nat :=
  voutAt (fetch u.txid).vout oracle f u.vout

lemma foldl_fun_congr {β : Type} (f g : Nat → β → Nat) (h : ∀ t x, f t x = g t x)
    (l : List β) : ∀ a, l.foldl f a = l.foldl g a := by
  induction l with
  | nil => intro a; rfl
  | cons x l ih =>
    intro a
    rw [List.foldl_cons, List.foldl_cons, h a x]
    exact ih _

lemma foldl_add_shift {β : Type} (g : β → Nat) (l : List β) :
    ∀ a : Nat, l.foldl (fun t x => t + g x) a = a + (l.map g).sum := by
  induction l with
  | nil => intro a; simp
  | cons x l ih =>
    intro a
    rw [List.foldl_cons, ih (a + g x), List.map_cons, List.sum_cons]
    omega

/-- `getBalanceNew` as a sum of per-output contributions. -/
lemma getBalanceNew_eq_sum (m : Mempool) (oracle : String → Nat) (f : Nat) :
    m.getBalanceNew oracle f
      = (m.txmap.map (fun p => (p.2.vout.map (balTerm m oracle f)).sum)).sum := by
  unfold Mempool.getBalanceNew
  have hbody : ∀ (tot : Nat) (vout : CTxOut),
      (if m.isSpent vout.outpoint then tot
        else if (oracle vout.script &&& f) == 0 then tot
        else tot + vout.value)
      = tot + balTerm m oracle f vout := by
    intro tot vout
    unfold balTerm clsVal
    by_cases h1 : m.isSpent vout.outpoint
    · simp [h1]
    · by_cases h2 : ((oracle vout.script &&& f) == 0) = true <;> simp [h1, h2]
  have hinner : ∀ (tot : Nat) (p : String × Transaction),
      p.2.vout.foldl
        (fun tot vout =>
          if m.isSpent vout.outpoint then tot
          else if (oracle vout.script &&& f) == 0 then tot
          else tot + vout.value) tot
      = tot + (p.2.vout.map (balTerm m oracle f)).sum := by
    intro tot p
    rw [foldl_fun_congr _ (fun t x => t + balTerm m oracle f x) hbody p.2.vout tot]
    exact foldl_add_shift _ _ _
  rw [foldl_fun_congr _
    (fun tot p => tot + (p.2.vout.map (balTerm m oracle f)).sum) hinner m.txmap 0]
  rw [foldl_add_shift _ m.txmap 0]
  omega

lemma sum_map_add {β : Type} (fN g : β → Nat) (l : List β) :
    (l.map (fun v => fN v + g v)).sum = (l.map fN).sum + (l.map g).sum := by
  induction l with
  | nil => rfl
  | cons x l ih =>
    simp only [List.map_cons, List.sum_cons, ih]
    omega

lemma sum_map_congr {β : Type} (fN g : β → Nat) (l : List β)
    (h : ∀ a ∈ l, fN a = g a) : (l.map fN).sum = (l.map g).sum := by
  induction l with
  | nil => rfl
  | cons x l ih =>
    simp only [List.map_cons, List.sum_cons]
    rw [h x (by simp), ih (fun a ha => h a (by simp [ha]))]

lemma sum_filter_split {β : Type} (p : β → Bool) (g : β → Nat) (l : List β) :
    (l.map g).sum
      = ((l.filter p).map g).sum + ((l.filter (fun a => !(p a))).map g).sum := by
  induction l with
  | nil => rfl
  | cons x l ih =>
    cases hx : p x <;> simp [List.filter_cons, hx, ih] <;> omega

lemma IndexedFrom.head_n (t : String) (base : Nat) (v : CTxOut) (l : List CTxOut)
    (h : IndexedFrom t base (v :: l)) : v.outpoint.n = base := by
  have h0 := h 0 v (by simp)
  rw [h0]
  simp

lemma IndexedFrom.head_txid (t : String) (base : Nat) (v : CTxOut) (l : List CTxOut)
    (h : IndexedFrom t base (v :: l)) : v.outpoint.txid = t := by
  have h0 := h 0 v (by simp)
  rw [h0]

lemma IndexedFrom.tail (t : String) (base : Nat) (v : CTxOut) (l : List CTxOut)
    (h : IndexedFrom t base (v :: l)) : IndexedFrom t (base + 1) l := by
  intro i w hw
  have h1 := h (i + 1) w (by simpa using hw)
  rw [h1]
  congr 1
  omega

lemma sum_pick_none (t : String) (c : CTxOut → Nat) :
    ∀ (l : List CTxOut) (base k : Nat), IndexedFrom t base l → k < base →
      (l.map (fun v => if k == v.outpoint.n then c v else 0)).sum = 0 := by
  intro l
  induction l with
  | nil => intro base k _ _; rfl
  | cons v l ih =>
    intro base k hidx hk
    have hvn := IndexedFrom.head_n t base v l hidx
    have hne : (k == v.outpoint.n) = false := by
      rw [hvn]
      exact beq_eq_false_iff_ne.mpr (by omega)
    simp only [List.map_cons, List.sum_cons, hne, Bool.false_eq_true, if_false]
    rw [ih (base + 1) k (IndexedFrom.tail t base v l hidx) (by omega)]

lemma sum_pick (t : String) (c : CTxOut → Nat) :
    ∀ (l : List CTxOut) (base j : Nat) (hidx : IndexedFrom t base l)
      (hj : j < l.length),
      (l.map (fun v => if base + j == v.outpoint.n then c v else 0)).sum
        = c (l.get ⟨j, hj⟩) := by
  intro l
  induction l with
  | nil => intro base j _ hj; cases hj
  | cons v l ih =>
    intro base j hidx hj
    have hvn := IndexedFrom.head_n t base v l hidx
    have htl := IndexedFrom.tail t base v l hidx
    cases j with
    | zero =>
      have hhit : (base + 0 == v.outpoint.n) = true := by
        rw [hvn]
        exact beq_iff_eq.mpr (by omega)
      simp only [List.map_cons, List.sum_cons, hhit, if_pos rfl]
      rw [sum_pick_none t c l (base + 1) (base + 0) htl (by omega)]
      rfl
    | succ j =>
      have hmiss : (base + (j + 1) == v.outpoint.n) = false := by
        rw [hvn]
        exact beq_eq_false_iff_ne.mpr (by omega)
      simp only [List.map_cons, List.sum_cons, hmiss, Bool.false_eq_true, if_false]
      have harith : ∀ w : CTxOut,
          (if base + (j + 1) == w.outpoint.n then c w else 0)
            = (if (base + 1) + j == w.outpoint.n then c w else 0) := by
        intro w
        have : base + (j + 1) = (base + 1) + j := by omega
        rw [this]
      rw [sum_map_congr _ _ l (fun w _ => harith w)]
      have hj' : j < l.length := by
        have := hj
        simp only [List.length_cons] at this
        omega
      rw [ih (base + 1) j htl hj']
      simp

lemma tin_filter (us : List SnapshotUTXO) (t : String) (i : Nat) :
    tinB us t i = (us.filter (fun u => u.txid == t)).any (fun u => u.vout == i) := by
  unfold tinB
  induction us with
  | nil => rfl
  | cons u us ih =>
    cases hu : (u.txid == t) with
    | true =>
      have hf : (u :: us).filter (fun u => u.txid == t)
          = u :: us.filter (fun u => u.txid == t) := by
        rw [List.filter_cons, if_pos hu]
      rw [hf]
      simp only [List.any_cons, hu, Bool.true_and]
      rw [ih]
    | false =>
      have hf : (u :: us).filter (fun u => u.txid == t)
          = us.filter (fun u => u.txid == t) := by
        rw [List.filter_cons, if_neg (by simp [hu])]
      rw [hf]
      simp only [List.any_cons, hu, Bool.false_and, Bool.false_or]
      rw [ih]

lemma sum_indicator_filter (vout : List CTxOut) (t : String)
    (oracle : String → Nat) (f : Nat) (hidx : IndexedFrom t 0 vout) :
    ∀ (F : List SnapshotUTXO),
      (∀ u ∈ F, u.vout < vout.length) →
      F.Pairwise (fun a b => a.vout ≠ b.vout) →
      (vout.map (fun v =>
          if F.any (fun u => u.vout == v.outpoint.n) then clsVal oracle f v else 0)).sum
        = (F.map (fun u => voutAt vout oracle f u.vout)).sum := by
  intro F
  induction F with
  | nil =>
    intro _ _
    simp
  | cons u F ih =>
    intro hbound hpw
    have hu : u.vout < vout.length := hbound u (by simp)
    have hnotin : ∀ w ∈ F, u.vout ≠ w.vout := (List.pairwise_cons.mp hpw).1
    have hpoint : ∀ v ∈ vout,
        (if (u :: F).any (fun w => w.vout == v.outpoint.n) then clsVal oracle f v else 0)
          = (if u.vout == v.outpoint.n then clsVal oracle f v else 0)
            + (if F.any (fun w => w.vout == v.outpoint.n) then clsVal oracle f v else 0) := by
      intro v _
      cases h1 : (u.vout == v.outpoint.n) with
      | true =>
        have h2 : F.any (fun w => w.vout == v.outpoint.n) = false := by
          rw [List.any_eq_false]
          intro w hw hc
          exact hnotin w hw ((beq_iff_eq.mp h1).trans (beq_iff_eq.mp hc).symm)
        simp [List.any_cons, h1, h2]
      | false =>
        cases h2 : F.any (fun w => w.vout == v.outpoint.n) <;>
          simp [List.any_cons, h1, h2]
    rw [sum_map_congr _ _ vout hpoint, sum_map_add]
    have hpick :
        (vout.map (fun v => if u.vout == v.outpoint.n then clsVal oracle f v else 0)).sum
          = voutAt vout oracle f u.vout := by
      have h0 : ∀ v : CTxOut,
          (if u.vout == v.outpoint.n then clsVal oracle f v else 0)
            = (if 0 + u.vout == v.outpoint.n then clsVal oracle f v else 0) := by
        intro v
        have hz : (0 : Nat) + u.vout = u.vout := by omega
        rw [hz]
      rw [sum_map_congr _ _ vout (fun v _ => h0 v)]
      rw [sum_pick t (clsVal oracle f) vout 0 u.vout hidx hu]
      unfold voutAt
      rw [List.getElem?_eq_getElem hu]
      rfl
    rw [hpick, ih (fun w hw => hbound w (by simp [hw])) (List.pairwise_cons.mp hpw).2]
    simp [List.map_cons, List.sum_cons]

lemma keyMem_iff_mem (P : List String) (t : String) : keyMem P t = true ↔ t ∈ P := by
  unfold keyMem
  rw [List.any_eq_true]
  constructor
  · rintro ⟨s, hs, hst⟩
    rw [← beq_iff_eq.mp hst]
    exact hs
  · intro h
    exact ⟨t, h, beq_self_eq_true t⟩

lemma keyMem_append_single (P : List String) (t s : String) :
    keyMem (P ++ [t]) s = (keyMem P s || (t == s)) := by
  unfold keyMem
  rw [List.any_append]
  simp only [List.any_cons, List.any_nil, Bool.or_false]

lemma mapHas_keys (fetch : String → Transaction) (P : List String) (t : String) :
    mapHas (P.map (fun s => (s, fetch s))) t = keyMem P t := by
  unfold mapHas keyMem
  induction P with
  | nil => rfl
  | cons s P ih =>
    simp only [List.map_cons, List.any_cons]
    rw [ih]

lemma mapSet_fresh (fetch : String → Transaction) (P : List String) (t : String)
    (v : Transaction) (h : keyMem P t = false) :
    mapSet (P.map (fun s => (s, fetch s))) t v
      = P.map (fun s => (s, fetch s)) ++ [(t, v)] := by
  unfold mapSet
  rw [if_neg (by rw [mapHas_keys fetch P t, h]; simp)]

lemma accKeys_mono : ∀ (rest : List SnapshotUTXO) (P : List String) (s : String),
    keyMem P s = true → keyMem (accKeys P rest) s = true := by
  intro rest
  induction rest with
  | nil => intro P s h; exact h
  | cons u rest ih =>
    intro P s h
    show keyMem (accKeys (if keyMem P u.txid then P else P ++ [u.txid]) rest) s = true
    apply ih
    by_cases hc : keyMem P u.txid = true
    · rw [if_pos hc]; exact h
    · rw [if_neg hc, keyMem_append_single, h]
      rfl

lemma accKeys_covers : ∀ (rest : List SnapshotUTXO) (P : List String),
    ∀ u ∈ rest, keyMem (accKeys P rest) u.txid = true := by
  intro rest
  induction rest with
  | nil => intro P u hu; cases hu
  | cons w rest ih =>
    intro P u hu
    show keyMem (accKeys (if keyMem P w.txid then P else P ++ [w.txid]) rest) u.txid = true
    rcases List.mem_cons.mp hu with rfl | hu
    · apply accKeys_mono
      by_cases hc : keyMem P u.txid = true
      · rw [if_pos hc]; exact hc
      · rw [if_neg hc, keyMem_append_single]
        simp
    · exact ih _ u hu

lemma accKeys_nodup : ∀ (rest : List SnapshotUTXO) (P : List String),
    P.Nodup → (accKeys P rest).Nodup := by
  intro rest
  induction rest with
  | nil => intro P h; exact h
  | cons u rest ih =>
    intro P h
    show (accKeys (if keyMem P u.txid then P else P ++ [u.txid]) rest).Nodup
    apply ih
    by_cases hc : keyMem P u.txid = true
    · rw [if_pos hc]; exact h
    · rw [if_neg hc, List.nodup_append]
      refine ⟨h, List.nodup_singleton _, ?_⟩
      intro s hs hs'
      have hsu : s = u.txid := by simpa using hs'
      subst hsu
      exact hc ((keyMem_iff_mem P u.txid).mpr hs)

/-- The SPENT set after the inner snapshot-marking pass, in closed form. -/
lemma snapshotMarkSpent_isSpent (utxos : List SnapshotUTXO) (txid : String) :
    ∀ (vs : List CTxOut) (m : Mempool) (op : COutpoint),
      ((snapshotMarkSpent utxos txid m vs).isSpent op = true
        ↔ (m.isSpent op = true
            ∨ ∃ v ∈ vs, op.txid = txid ∧ op.n = v.outpoint.n
                ∧ tinB utxos txid v.outpoint.n = false)) := by
  intro vs
  induction vs with
  | nil => intro m op; simp [snapshotMarkSpent]
  | cons vout vs ih =>
    intro m op
    simp only [snapshotMarkSpent]
    cases ht : tinB utxos txid vout.outpoint.n with
    | true =>
      rw [if_neg (by simp [ht])]
      rw [ih m op]
      constructor
      · rintro (h | ⟨v, hv, h1, h2, h3⟩)
        · exact Or.inl h
        · exact Or.inr ⟨v, by simp [hv], h1, h2, h3⟩
      · rintro (h | ⟨v, hv, h1, h2, h3⟩)
        · exact Or.inl h
        · rcases List.mem_cons.mp hv with rfl | hv
          · rw [ht] at h3
            exact Bool.noConfusion h3
          · exact Or.inr ⟨v, hv, h1, h2, h3⟩
    | false =>
      cases hsp : (m.isSpent { txid := txid, n := vout.outpoint.n }) with
      | true =>
        rw [if_neg (by simp [hsp])]
        rw [ih m op]
        constructor
        · rintro (h | ⟨v, hv, h1, h2, h3⟩)
          · exact Or.inl h
          · exact Or.inr ⟨v, by simp [hv], h1, h2, h3⟩
        · rintro (h | ⟨v, hv, h1, h2, h3⟩)
          · exact Or.inl h
          · rcases List.mem_cons.mp hv with rfl | hv
            · left
              have hop : op = { txid := txid, n := v.outpoint.n } :=
                outpoint_ext _ _ h1 h2
              rw [hop]
              exact hsp
            · exact Or.inr ⟨v, hv, h1, h2, h3⟩
      | false =>
        rw [if_pos (by simp [ht, hsp])]
        rw [ih _ op, isSpent_append]
        simp only [Bool.or_eq_true, Bool.and_eq_true, beq_iff_eq]
        constructor
        · rintro ((h | ⟨h1, h2⟩) | ⟨v, hv, h1, h2, h3⟩)
          · exact Or.inl h
          · exact Or.inr ⟨vout, by simp, h1.symm, h2.symm, ht⟩
          · exact Or.inr ⟨v, by simp [hv], h1, h2, h3⟩
        · rintro (h | ⟨v, hv, h1, h2, h3⟩)
          · exact Or.inl (Or.inl h)
          · rcases List.mem_cons.mp hv with rfl | hv
            · exact Or.inl (Or.inr ⟨h1.symm, h2.symm⟩)
            · exact Or.inr ⟨v, hv, h1, h2, h3⟩

/-- One snapshot-handler iteration preserves the loop invariant: the
transaction map holds the fetched transaction of every processed txid and
the SPENT set is `spentMark` restricted to processed txids. -/
lemma utxoStep_char (fetch : String → Transaction) (us : List SnapshotUTXO)
    (hfetch : ∀ s, (fetch s).txid = s) (m : Mempool) (P : List String)
    (u : SnapshotUTXO)
    (hmap : m.txmap = P.map (fun s => (s, fetch s)))
    (hsp : ∀ op, m.isSpent op = true
      ↔ (keyMem P op.txid = true ∧ spentMark fetch us op = true)) :
    ((utxoStep fetch us m u).txmap
        = (if keyMem P u.txid then P else P ++ [u.txid]).map (fun s => (s, fetch s))
      ∧ ∀ op, (utxoStep fetch us m u).isSpent op = true
          ↔ (keyMem (if keyMem P u.txid then P else P ++ [u.txid]) op.txid = true
              ∧ spentMark fetch us op = true)) := by
  by_cases hc : keyMem P u.txid = true
  · rw [if_pos hc]
    have hhas : mapHas m.txmap u.txid = true := by
      rw [hmap, mapHas_keys fetch P u.txid]
      exact hc
    have hstep : utxoStep fetch us m u
        = { m with syncHeight := max m.syncHeight u.height } := by
      unfold utxoStep
      rw [if_pos hhas]
    rw [hstep]
    exact ⟨hmap, hsp⟩
  · rw [if_neg hc]
    have hc' : keyMem P u.txid = false := by
      cases h : keyMem P u.txid
      · rfl
      · exact absurd h hc
    have hhas : mapHas m.txmap u.txid = false := by
      rw [hmap, mapHas_keys fetch P u.txid]
      exact hc'
    have hstep : utxoStep fetch us m u
        = snapshotMarkSpent us (fetch u.txid).txid
            { m with
              syncHeight := max m.syncHeight u.height,
              txmap := mapSet m.txmap (fetch u.txid).txid (fetch u.txid) }
            (fetch u.txid).vout := by
      unfold utxoStep
      rw [if_neg (by simp [hhas])]
    rw [hstep]
    constructor
    · rw [(snapshotMarkSpent_frame us (fetch u.txid).txid (fetch u.txid).vout
        { m with
          syncHeight := max m.syncHeight u.height,
          txmap := mapSet m.txmap (fetch u.txid).txid (fetch u.txid) }).2.2.2.2]
      show mapSet m.txmap (fetch u.txid).txid (fetch u.txid) = _
      rw [hfetch u.txid, hmap, mapSet_fresh fetch P u.txid (fetch u.txid) hc',
        List.map_append]
      rfl
    · intro op
      rw [snapshotMarkSpent_isSpent us (fetch u.txid).txid (fetch u.txid).vout
        { m with
          syncHeight := max m.syncHeight u.height,
          txmap := mapSet m.txmap (fetch u.txid).txid (fetch u.txid) } op]
      have hm2sp : Mempool.isSpent
          { m with
            syncHeight := max m.syncHeight u.height,
            txmap := mapSet m.txmap (fetch u.txid).txid (fetch u.txid) } op
          = m.isSpent op := rfl
      rw [hm2sp, hsp op, keyMem_append_single, hfetch u.txid]
      constructor
      · rintro (⟨hkP, hmk⟩ | ⟨v, hv, h1, h2, h3⟩)
        · exact ⟨by rw [hkP]; rfl, hmk⟩
        · refine ⟨?_, ?_⟩
          · rw [h1]
            simp
          · unfold spentMark
            rw [h1, Bool.and_eq_true]
            constructor
            · rw [List.any_eq_true]
              exact ⟨v, hv, beq_iff_eq.mpr h2.symm⟩
            · rw [h2, h3]
              rfl
      · rintro ⟨hk, hmk⟩
        rw [Bool.or_eq_true] at hk
        rcases hk with hk | hk
        · exact Or.inl ⟨hk, hmk⟩
        · have h1 : op.txid = u.txid := (beq_iff_eq.mp hk).symm
          right
          unfold spentMark at hmk
          rw [Bool.and_eq_true] at hmk
          obtain ⟨hany, htin⟩ := hmk
          rw [h1] at hany htin
          rw [List.any_eq_true] at hany
          obtain ⟨v, hv, hvn⟩ := hany
          have h2 : op.n = v.outpoint.n := (beq_iff_eq.mp hvn).symm
          refine ⟨v, hv, h1, h2, ?_⟩
          rw [← h2]
          revert htin
          cases tinB us u.txid op.n <;> simp

/-- The snapshot-handler loop invariant, over a whole entry list. -/
lemma utxoLoop_char (fetch : String → Transaction) (us : List SnapshotUTXO)
    (hfetch : ∀ s, (fetch s).txid = s) :
    ∀ (rest : List SnapshotUTXO) (m : Mempool) (P : List String),
      m.txmap = P.map (fun s => (s, fetch s)) →
      (∀ op, m.isSpent op = true
        ↔ (keyMem P op.txid = true ∧ spentMark fetch us op = true)) →
      ((utxoLoop fetch us m rest).txmap
          = (accKeys P rest).map (fun s => (s, fetch s))
        ∧ ∀ op, (utxoLoop fetch us m rest).isSpent op = true
            ↔ (keyMem (accKeys P rest) op.txid = true
                ∧ spentMark fetch us op = true)) := by
  intro rest
  induction rest with
  | nil => intro m P hmap hsp; exact ⟨hmap, hsp⟩
  | cons u rest ih =>
    intro m P hmap hsp
    have hloop : utxoLoop fetch us m (u :: rest)
        = utxoLoop fetch us (utxoStep fetch us m u) rest := rfl
    have hacc : accKeys P (u :: rest)
        = accKeys (if keyMem P u.txid then P else P ++ [u.txid]) rest := rfl
    rw [hloop, hacc]
    have hchar := utxoStep_char fetch us hfetch m P u hmap hsp
    exact ih (utxoStep fetch us m u)
      (if keyMem P u.txid then P else P ++ [u.txid]) hchar.1 hchar.2

/-- Summing a quantity per snapshot entry, grouped by distinct txids that
cover the list, equals summing over the list. -/
lemma sum_partition (g : SnapshotUTXO → Nat) :
    ∀ (P : List String) (l : List SnapshotUTXO),
      P.Nodup → (∀ u ∈ l, keyMem P u.txid = true) →
      (P.map (fun t => ((l.filter (fun u => u.txid == t)).map g).sum)).sum
        = (l.map g).sum := by
  intro P
  induction P with
  | nil =>
    intro l _ hcov
    cases l with
    | nil => rfl
    | cons u l' =>
      have h := hcov u (by simp)
      rw [show keyMem [] u.txid = false from rfl] at h
      exact Bool.noConfusion h
  | cons t P ih =>
    intro l hnd hcov
    obtain ⟨hnt, hndP⟩ := List.nodup_cons.mp hnd
    rw [List.map_cons, List.sum_cons, sum_filter_split (fun u => u.txid == t) g l]
    congr 1
    have hcov' : ∀ u ∈ l.filter (fun u => !(u.txid == t)), keyMem P u.txid = true := by
      intro u hu
      rw [List.mem_filter] at hu
      have h1 := hcov u hu.1
      unfold keyMem at h1
      rw [List.any_cons] at h1
      have hne : (t == u.txid) = false := by
        have h2 : (u.txid == t) = false := by
          have := hu.2
          revert this
          cases (u.txid == t) <;> simp
        exact beq_eq_false_iff_ne.mpr (Ne.symm (beq_eq_false_iff_ne.mp h2))
      rw [hne, Bool.false_or] at h1
      exact h1
    rw [← ih (l.filter (fun u => !(u.txid == t))) hndP hcov']
    apply sum_map_congr
    intro t' ht'
    have hne : t' ≠ t := fun h => hnt (h ▸ ht')
    have hfeq : l.filter (fun u => u.txid == t')
        = (l.filter (fun u => !(u.txid == t))).filter (fun u => u.txid == t') := by
      rw [List.filter_filter]
      apply List.filter_congr
      intro u _
      cases h : (u.txid == t') with
      | true =>
        have hut : u.txid = t' := beq_iff_eq.mp h
        have h2 : (u.txid == t) = false := by
          rw [hut]
          exact beq_eq_false_iff_ne.mpr hne
        rw [h2]
        rfl
      | false => rfl
    rw [hfeq]

/-- The per-txid inner sum: the classified unspent value of one stored
transaction equals the classified value of the snapshot entries naming
that transaction. -/
lemma snapshot_inner_sum (oracle : String → Nat) (fetch : String → Transaction)
    (us : List SnapshotUTXO) (f : Nat) (M : Mempool) (t : String)
    (hidx : IndexedFrom t 0 (fetch t).vout)
    (hex : ∀ u ∈ us, u.vout < (fetch u.txid).vout.length)
    (hdist : us.Pairwise (fun a b => ¬(a.txid = b.txid ∧ a.vout = b.vout)))
    (hkeyt : ∀ op : COutpoint, op.txid = t → M.isSpent op
      = (spentMark fetch us op)) :
    ((fetch t).vout.map (balTerm M oracle f)).sum
      = ((us.filter (fun u => u.txid == t)).map
          (snapshotEntryValue fetch oracle f)).sum := by
  have hpoint : ∀ v ∈ (fetch t).vout,
      balTerm M oracle f v
        = (if (us.filter (fun u => u.txid == t)).any
              (fun u => u.vout == v.outpoint.n) then clsVal oracle f v else 0) := by
    intro v hv
    obtain ⟨i, hi⟩ := List.getElem?_of_mem hv
    have hvop := hidx i v hi
    have hvt : v.outpoint.txid = t := by rw [hvop]
    unfold balTerm
    rw [hkeyt v.outpoint hvt]
    unfold spentMark
    rw [hvt]
    have hany : ((fetch t).vout.any (fun w => w.outpoint.n == v.outpoint.n)) = true := by
      rw [List.any_eq_true]
      exact ⟨v, hv, beq_self_eq_true _⟩
    rw [hany, Bool.true_and, tin_filter]
    cases htin : ((us.filter (fun u => u.txid == t)).any
        (fun u => u.vout == v.outpoint.n)) <;> simp
  rw [sum_map_congr _ _ (fetch t).vout hpoint]
  have hboundF : ∀ w ∈ us.filter (fun u => u.txid == t),
      w.vout < (fetch t).vout.length := by
    intro w hw
    rw [List.mem_filter] at hw
    have h1 := hex w hw.1
    rw [beq_iff_eq.mp hw.2] at h1
    exact h1
  have hpwF : (us.filter (fun u => u.txid == t)).Pairwise
      (fun a b => a.vout ≠ b.vout) := by
    have hpf : (us.filter (fun u => u.txid == t)).Pairwise
        (fun a b => ¬(a.txid = b.txid ∧ a.vout = b.vout)) := hdist.filter _
    apply List.Pairwise.imp_of_mem ?_ hpf
    intro a b ha hb hR hvv
    rw [List.mem_filter] at ha hb
    exact hR ⟨(beq_iff_eq.mp ha.2).trans (beq_iff_eq.mp hb.2).symm, hvv⟩
  rw [sum_indicator_filter (fetch t).vout t oracle f hidx
    (us.filter (fun u => u.txid == t)) hboundF hpwF]
  apply sum_map_congr
  intro w hw
  rw [List.mem_filter] at hw
  unfold snapshotEntryValue
  rw [beq_iff_eq.mp hw.2]

/-- C1: ingesting a snapshot into an empty ledger yields, for every filter
bitmask, a balance equal to the sum of the values of exactly those
snapshot outputs whose ownership classification intersects the filter;
and no snapshot output is marked SPENT.  The hypotheses say the network
is well-behaved (`fetch` returns the requested transaction, with outputs
positioned by index) and the snapshot lists each outpoint once, each
referring to an existing output of its transaction. -/
theorem C1_snapshot_balance (oracle : String → Nat) (fetch : String → Transaction)
    (us : List SnapshotUTXO) (f : Nat)
    (hfetch : ∀ t, (fetch t).txid = t)
    (hidx : ∀ t, IndexedFrom t 0 (fetch t).vout)
    (hdist : us.Pairwise (fun a b => ¬(a.txid = b.txid ∧ a.vout = b.vout)))
    (hex : ∀ u ∈ us, u.vout < (fetch u.txid).vout.length) :
    ((utxoHandler oracle fetch mempoolNew us).1.getBalanceNew oracle f
        = (us.map (snapshotEntryValue fetch oracle f)).sum
      ∧ ∀ u ∈ us, (utxoHandler oracle fetch mempoolNew us).1.isSpent
          { txid := u.txid, n := u.vout } = false) := by
  cases us with
  | nil =>
    exact ⟨rfl, fun u hu => absurd hu (List.not_mem_nil u)⟩
  | cons u0 us' =>
    rw [utxoHandler_run oracle fetch mempoolNew (u0 :: us') rfl (by simp)]
    dsimp only
    have hbase : ∀ op : COutpoint, mempoolNew.isSpent op = true
        ↔ (keyMem [] op.txid = true ∧ spentMark fetch (u0 :: us') op = true) := by
      intro op
      constructor
      · intro h
        rw [show mempoolNew.isSpent op = false from rfl] at h
        exact Bool.noConfusion h
      · rintro ⟨hk, _⟩
        rw [show keyMem [] op.txid = false from rfl] at hk
        exact Bool.noConfusion hk
    obtain ⟨hmap1, hsp1⟩ := utxoLoop_char fetch (u0 :: us') hfetch (u0 :: us')
      mempoolNew [] rfl hbase
    have hspB : ∀ op : COutpoint,
        (utxoLoop fetch (u0 :: us') mempoolNew (u0 :: us')).isSpent op
          = (keyMem (accKeys [] (u0 :: us')) op.txid
              && spentMark fetch (u0 :: us') op) := by
      intro op
      apply boolEq_of_iff
      rw [Bool.and_eq_true]
      exact hsp1 op
    constructor
    · rw [getBalanceNew_congr (utxoLoop fetch (u0 :: us') mempoolNew (u0 :: us'))
        (Mempool.refreshBalances
          { utxoLoop fetch (u0 :: us') mempoolNew (u0 :: us') with isLoaded := true }
          oracle) rfl rfl oracle f]
      rw [getBalanceNew_eq_sum _ oracle f, hmap1, List.map_map]
      have hcomp : ((fun p : String × Transaction =>
            (p.2.vout.map (balTerm
              (utxoLoop fetch (u0 :: us') mempoolNew (u0 :: us')) oracle f)).sum)
          ∘ (fun s => (s, fetch s)))
          = (fun s => ((fetch s).vout.map (balTerm
              (utxoLoop fetch (u0 :: us') mempoolNew (u0 :: us')) oracle f)).sum) := rfl
      rw [hcomp]
      have hinner : ∀ t ∈ accKeys [] (u0 :: us'),
          ((fetch t).vout.map (balTerm
              (utxoLoop fetch (u0 :: us') mempoolNew (u0 :: us')) oracle f)).sum
            = (((u0 :: us').filter (fun u => u.txid == t)).map
                (snapshotEntryValue fetch oracle f)).sum := by
        intro t ht
        apply snapshot_inner_sum oracle fetch (u0 :: us') f _ t (hidx t) hex hdist
        intro op hop
        rw [hspB op, hop, (keyMem_iff_mem (accKeys [] (u0 :: us')) t).mpr ht,
          Bool.true_and]
      rw [sum_map_congr _ _ (accKeys [] (u0 :: us')) hinner]
      exact sum_partition (snapshotEntryValue fetch oracle f)
        (accKeys [] (u0 :: us')) (u0 :: us')
        (accKeys_nodup (u0 :: us') [] List.nodup_nil)
        (accKeys_covers (u0 :: us') [])
    · intro u hu
      have hq : Mempool.isSpent (Mempool.refreshBalances
          { utxoLoop fetch (u0 :: us') mempoolNew (u0 :: us') with isLoaded := true }
          oracle) { txid := u.txid, n := u.vout }
          = (utxoLoop fetch (u0 :: us') mempoolNew (u0 :: us')).isSpent
              { txid := u.txid, n := u.vout } := rfl
      rw [hq, hspB]
      have htin : tinB (u0 :: us') u.txid u.vout = true := by
        unfold tinB
        rw [List.any_eq_true]
        exact ⟨u, hu, by simp⟩
      have hmark : spentMark fetch (u0 :: us') { txid := u.txid, n := u.vout }
          = false := by
        unfold spentMark
        rw [show ({ txid := u.txid, n := u.vout } : COutpoint).txid = u.txid from rfl,
          show ({ txid := u.txid, n := u.vout } : COutpoint).n = u.vout from rfl,
          htin]
        simp
      rw [hmark]
      simp

/-- Witness for C1: one snapshot output of value 7 classified under
filter 1 yields balance 7 = the sum of the classified snapshot values. -/
theorem C1_witness :
    ((utxoHandler oracleW fetchW mempoolNew usW).1.getBalanceNew oracleW 1
        = (usW.map (snapshotEntryValue fetchW oracleW 1)).sum
      ∧ ∀ u ∈ usW, (utxoHandler oracleW fetchW mempoolNew usW).1.isSpent
          { txid := u.txid, n := u.vout } = false) :=
  C1_snapshot_balance oracleW fetchW usW 1 (fun _ => rfl)
    (fun t => by
      intro i v h
      rw [show (fetchW t).vout
          = [{ outpoint := { txid := t, n := 0 }, script := "s", value := 7 }]
        from rfl] at h
      cases i with
      | zero =>
        rw [List.getElem?_cons_zero] at h
        injection h with h'
        rw [← h']
      | succ i =>
        rw [List.getElem?_cons_succ, List.getElem?_nil] at h
        exact Option.noConfusion h)
    (by decide) (by decide)

end MPW
